import Mathlib

/-!
Verification development for the radix-tree URL router of the api-gw
repository (package httprouter: `node.AddRoute`, `node.Resolve`,
`node.insertChild`, `node.incrementChildNodePriorityAndSwapIfNeeded`,
`node.findCaseInsensitivePath` and the `PathParameters` helpers).

Modelling conventions:
* Go strings are byte strings; they are modelled as `List Nat` with each
  element a byte value.
* Go `http.Handler` references are modelled as `Option Nat`; `none` models a
  nil handler.
* `priority` is a Go `uint32`; it is modelled as an unbounded natural
  (its overflow, which would need 2^32 insertions into one tree, is not
  modelled).  `maxParameters` and the insertion parameter counter are Go
  `uint8` values; the one decrement the source performs on the counter is
  modelled with the uint8 wrap-around semantics.
* Go panics (both explicit `panic(...)` calls and runtime slice/index
  faults) are modelled explicitly: insertion returns `Except AddErr Node`,
  resolution returns `Option` with `none` for a panic.
* `AddRoute` contains a loop whose termination is not structural; it is
  modelled with an explicit fuel argument (`none` = fuel exhausted).
  `Resolve` descends strictly into children and is defined by well-founded
  recursion on the tree.
* `Resolve` and the case-insensitive walker are state-threaded: they return
  the tree alongside the result, mirroring the heap of the imperative
  original, so that absence of mutation is a provable statement.
-/

namespace ApiGw

/-- Go byte strings, as lists of byte values. -/
abbrev Bytes := List Nat

/-- Byte string of an ASCII string literal (for ASCII text, Go's UTF-8 bytes
coincide with the character codes). -/
def bsv (s : String) : Bytes := s.data.map Char.toNat

/-- countRequestPathParams: counts ':' (58) and '*' (42) bytes, saturating
at 255 (the result is a Go uint8). -/
def countRequestPathParams (path : Bytes) : Nat :=
  let n := path.countP (fun c => c == 58 || c == 42)
  if n ≥ 255 then 255 else n

/-- nodeType of the source: static / root / param / catchAll. -/
inductive NodeType where
  | static
  | root
  | param
  | catchAll
deriving DecidableEq, Repr

/-- The node structure of the radix tree (all fields of the Go struct). -/
structure Node where
  path : Bytes
  routePath : Bytes
  children : List Node
  indices : Bytes
  wildChild : Bool
  nodeType : NodeType
  maxParameters : Nat
  priority : Nat
  handler : Option Nat
deriving Repr

/-- The zero value of the Go node struct (`&node{}`). -/
def emptyNode : Node :=
  { path := [], routePath := [], children := [], indices := [],
    wildChild := false, nodeType := NodeType.static, maxParameters := 0,
    priority := 0, handler := none }

/-- The panics AddRoute / insertChild can raise, including Go runtime
index/slice panics (`indexPanic`). -/
inductive AddErr where
  | pathWildcardConflict (path seg : Bytes)
  | handlerAlreadyExists (path : Bytes)
  | multipleWildcards (path : Bytes)
  | wildcardSegmentConflict (path : Bytes)
  | emptyWildcardName
  | catchAllNotAtEnd
  | catchAllRootConflict
  | noSlashBeforeCatchAll
  | indexPanic
deriving DecidableEq, Repr

/-- List indexing that carries a membership proof (used so that recursion
into a child node is visibly a descent for the termination checker). -/
def getIdx {α : Type} : (l : List α) → Nat → Option {x // x ∈ l}
  | [], _ => none
  | a :: _, 0 => some ⟨a, List.mem_cons_self a _⟩
  | _ :: as, i + 1 =>
    match getIdx as i with
    | none => none
    | some ⟨x, h⟩ => some ⟨x, List.mem_cons_of_mem _ h⟩

/-- The first position in `indices` holding byte `c` (the linear scans
`for index, character := range n.indices`). -/
def findIndexPos : Bytes → Nat → Option Nat
  | [], _ => none
  | b :: rest, c => if b = c then some 0 else (findIndexPos rest c).map (· + 1)

/-- Longest common prefix length of two byte strings (the
`commonPrefixLength` closure inside AddRoute). -/
def commonPrefixLength : Bytes → Bytes → Nat
  | a :: as, b :: bs2 => if a = b then commonPrefixLength as bs2 + 1 else 0
  | _, _ => 0

/-- The maxParameters recomputation performed on a split child: the maximum
of the children's maxParameters, starting from the zero value. -/
def maxChildParams : List Node → Nat
  | [] => 0
  | c :: cs => max c.maxParameters (maxChildParams cs)

/-- The bubble-left loop of incrementChildNodePriorityAndSwapIfNeeded:
starting at position `pos` of the (already incremented) child with priority
`priority`, swap with the left neighbour while that neighbour's priority is
strictly smaller, swapping the `children` entry and the `indices` byte
together.  `none` models a Go index panic on the parallel `indices` slice. -/
def bubbleLeft (priority : Nat) :
    List Node → Bytes → Nat → Option (List Node × Bytes × Nat)
  | children, indices, 0 => some (children, indices, 0)
  | children, indices, sib + 1 =>
    match children[sib]? with
    | none => none
    | some csib =>
      if csib.priority ≥ priority then some (children, indices, sib + 1)
      else
        match children[sib + 1]?, indices[sib]?, indices[sib + 1]? with
        | some cpos, some isib, some ipos =>
          bubbleLeft priority ((children.set sib cpos).set (sib + 1) csib)
            ((indices.set sib ipos).set (sib + 1) isib) sib
        | _, _, _ => none

/-- incrementChildNodePriorityAndSwapIfNeeded: increments the priority of
the child at `pos`, bubbles it left to keep the children sorted by
descending priority, and returns the updated node together with the child's
new position.  `none` models the explicit no-child-at-position panic and
runtime index panics. -/
def Node.incrementChildNodePriorityAndSwapIfNeeded (n : Node) (pos : Nat) :
    Option (Node × Nat) :=
  if pos ≥ n.children.length then none
  else
    match n.children[pos]? with
    | none => none
    | some c =>
      let c2 := { c with priority := c.priority + 1 }
      match bubbleLeft c2.priority (n.children.set pos c2) n.indices pos with
      | none => none
      | some (children2, indices2, pos2) =>
        some ({ n with children := children2, indices := indices2 }, pos2)

/-- Scan helper of insertChild: length of the wildcard name up to the next
'/' or the end of the segment; `none` models the multiple-wildcards panic
(a second ':' or '*' before the next '/'). -/
def wildEnd : Bytes → Option Nat
  | [] => some 0
  | c :: rest =>
    if c = 47 then some 0
    else if c = 58 ∨ c = 42 then none
    else (wildEnd rest).map (· + 1)

/-- The scanning loop of insertChild.  `path` is the full remaining pattern
handed to insertChild, `n` the node currently being written, `offset` and
`i` the two byte cursors of the source, and `rest` is `path.drop i` (the
loop reads `path[i]`).  `pc` is the uint8 parameter counter; the loop runs
while it is positive. -/
def Node.insertChildScan (routePath : Bytes) (path : Bytes)
    (handler : Option Nat) :
    Nat → Node → Nat → Nat → Bytes → Except AddErr Node
  | 0, n, offset, _, _ =>
    Except.ok { n with path := path.drop offset, handler := handler }
  | _ + 1, _, _, _, [] => Except.error AddErr.indexPanic
  | pcp + 1, n, offset, i, c :: rest =>
    if c ≠ 58 ∧ c ≠ 42 then
      Node.insertChildScan routePath path handler (pcp + 1) n offset (i + 1) rest
    else if n.children.length > 0 then
      Except.error (AddErr.wildcardSegmentConflict path)
    else
      match wildEnd rest with
      | none => Except.error (AddErr.multipleWildcards path)
      | some k =>
        let e := i + 1 + k
        if e - i < 2 then Except.error AddErr.emptyWildcardName
        else if c = 58 then
          let n1 := if i > 0 then
              { n with path := (path.drop offset).take (i - offset) } else n
          let offset1 := if i > 0 then i else offset
          let child0 : Node :=
            { emptyNode with
              routePath := routePath
              nodeType := NodeType.param
              maxParameters := pcp + 1
              priority := 1 }
          if e < path.length then
            let child1 :=
              { child0 with path := (path.drop offset1).take (e - offset1) }
            let slash : Node :=
              { emptyNode with
                maxParameters := pcp
                priority := 1 }
            match Node.insertChildScan routePath path handler pcp slash e (i + 1) rest with
            | Except.error err => Except.error err
            | Except.ok sub =>
              Except.ok { n1 with
                children := [{ child1 with children := [sub] }]
                wildChild := true }
          else
            match Node.insertChildScan routePath path handler pcp child0 offset1 (i + 1) rest with
            | Except.error err => Except.error err
            | Except.ok sub =>
              Except.ok { n1 with children := [sub], wildChild := true }
        else
          if e ≠ path.length ∨ pcp + 1 > 1 then Except.error AddErr.catchAllNotAtEnd
          else if n.path.length > 0 ∧ n.path.getLast? = some 47 then
            Except.error AddErr.catchAllRootConflict
          else
            match i with
            | 0 => Except.error AddErr.indexPanic
            | iM1 + 1 =>
              if path.getD iM1 0 ≠ 47 then Except.error AddErr.noSlashBeforeCatchAll
              else
                let n1 := { n with path := (path.drop offset).take (iM1 - offset) }
                let childA : Node :=
                  { emptyNode with
                    wildChild := true
                    nodeType := NodeType.catchAll
                    maxParameters := 1
                    priority := 1 }
                let childB : Node :=
                  { emptyNode with
                    path := path.drop iM1
                    routePath := routePath
                    nodeType := NodeType.catchAll
                    maxParameters := 1
                    handler := handler
                    priority := 1 }
                Except.ok { n1 with
                  children := [{ childA with children := [childB] }]
                  indices := [47] }

/-- insertChild of the source: inserts the remaining pattern `path` below
`n`, creating the wildcard chain. -/
def Node.insertChild (n : Node) (pc : Nat) (routePath path : Bytes)
    (handler : Option Nat) : Except AddErr Node :=
  Node.insertChildScan routePath path handler pc n 0 0 path

/-- The `walk` loop of AddRoute, with explicit fuel (`none` = fuel ran
out; one unit of fuel is one loop iteration).  `pc` is the uint8 parameter
counter carried along the walk. -/
def Node.addRouteWalk (handler : Option Nat) (routePath : Bytes) :
    Nat → Node → Bytes → Nat → Option (Except AddErr Node)
  | 0, _, _, _ => none
  | fuel + 1, n0, path, pc =>
    let n1 := if pc > n0.maxParameters then { n0 with maxParameters := pc } else n0
    let pos := commonPrefixLength path n1.path
    let n :=
      if pos < n1.path.length then
        let child : Node :=
          { emptyNode with
            path := n1.path.drop pos
            wildChild := n1.wildChild
            indices := n1.indices
            children := n1.children
            handler := n1.handler
            priority := n1.priority - 1
            maxParameters := maxChildParams n1.children }
        { n1 with
          children := [child]
          indices := [n1.path.getD pos 0]
          path := path.take pos
          handler := none
          wildChild := false }
      else n1
    if pos < path.length then
      let path2 := path.drop pos
      if n.wildChild then
        match getIdx n.children 0 with
        | none => some (Except.error AddErr.indexPanic)
        | some c =>
          let cw1 := { c.1 with priority := c.1.priority + 1 }
          let cw := if pc > cw1.maxParameters then
              { cw1 with maxParameters := pc } else cw1
          let pc2 := if pc = 0 then 255 else pc - 1
          if path2.length ≥ cw.path.length ∧ cw.path = path2.take cw.path.length ∧
              (cw.path.length ≥ path2.length ∨ path2.getD cw.path.length 0 = 47) then
            match Node.addRouteWalk handler routePath fuel cw path2 pc2 with
            | none => none
            | some (Except.error e) => some (Except.error e)
            | some (Except.ok cw2) =>
              some (Except.ok { n with children := n.children.set 0 cw2 })
          else
            some (Except.error (AddErr.pathWildcardConflict path2 cw.path))
      else
        match path2 with
        | [] => some (Except.error AddErr.indexPanic)
        | ca :: _ =>
          if n.nodeType = NodeType.param ∧ ca = 47 ∧ n.children.length = 1 then
            match getIdx n.children 0 with
            | none => some (Except.error AddErr.indexPanic)
            | some c =>
              let cw := { c.1 with priority := c.1.priority + 1 }
              match Node.addRouteWalk handler routePath fuel cw path2 pc with
              | none => none
              | some (Except.error e) => some (Except.error e)
              | some (Except.ok cw2) =>
                some (Except.ok { n with children := n.children.set 0 cw2 })
          else
            match findIndexPos n.indices ca with
            | some idx =>
              match n.incrementChildNodePriorityAndSwapIfNeeded idx with
              | none => some (Except.error AddErr.indexPanic)
              | some (n2, idx2) =>
                match getIdx n2.children idx2 with
                | none => some (Except.error AddErr.indexPanic)
                | some csub =>
                  match Node.addRouteWalk handler routePath fuel csub.1 path2 pc with
                  | none => none
                  | some (Except.error e) => some (Except.error e)
                  | some (Except.ok child2) =>
                    some (Except.ok { n2 with children := n2.children.set idx2 child2 })
            | none =>
              if ca ≠ 58 ∧ ca ≠ 42 then
                let fresh : Node :=
                  { emptyNode with routePath := routePath, maxParameters := pc }
                let n2 :=
                  { n with
                    indices := n.indices ++ [ca]
                    children := n.children ++ [fresh] }
                match n2.incrementChildNodePriorityAndSwapIfNeeded (n2.indices.length - 1) with
                | none => some (Except.error AddErr.indexPanic)
                | some (n3, newPos) =>
                  match getIdx n3.children newPos with
                  | none => some (Except.error AddErr.indexPanic)
                  | some cw =>
                    match cw.1.insertChild pc routePath path2 handler with
                    | Except.error e => some (Except.error e)
                    | Except.ok sub =>
                      some (Except.ok { n3 with children := n3.children.set newPos sub })
              else
                match n.insertChild pc routePath path2 handler with
                | Except.error e => some (Except.error e)
                | Except.ok n2 => some (Except.ok n2)
    else if pos = path.length then
      match n.handler with
      | some _ => some (Except.error (AddErr.handlerAlreadyExists path))
      | none =>
        some (Except.ok { n with routePath := routePath, handler := handler })
    else some (Except.ok n)

/-- AddRoute of the source: registers `path` with `handler` at the tree
rooted in `n`.  `fuel` bounds the number of `walk` iterations. -/
def Node.AddRoute (n : Node) (path : Bytes) (handler : Option Nat)
    (fuel : Nat) : Option (Except AddErr Node) :=
  let n1 := { n with priority := n.priority + 1 }
  let pc := countRequestPathParams path
  if n1.path.length > 0 ∨ n1.children.length > 0 then
    Node.addRouteWalk handler path fuel n1 path pc
  else
    match n1.insertChild pc path path handler with
    | Except.error e => some (Except.error e)
    | Except.ok n2 => some (Except.ok n2)

/-- PathParameter of the source. -/
structure PathParameter where
  Key : Bytes
  Value : Bytes
deriving DecidableEq, Repr

/-- PathParameters of the source.  `cap` is the capacity of the Go backing
array allocated by NewPathParameters; the reslicings in the source panic
when they would exceed this capacity. -/
structure PathParameters where
  route : Bytes
  cap : Nat
  parameters : List PathParameter
deriving DecidableEq, Repr

/-- NewPathParameters: empty parameter list with capacity `parameterCount`. -/
def NewPathParameters (route : Bytes) (parameterCount : Nat) : PathParameters :=
  { route := route, cap := parameterCount, parameters := [] }

/-- AddParameter: reslices the parameter list one longer and writes the
key/value pair into the new slot; `none` models the Go slice-bounds panic
raised when the reslice exceeds the backing capacity. -/
def PathParameters.AddParameter (p : PathParameters) (key value : Bytes) :
    Option PathParameters :=
  if p.parameters.length + 1 ≤ p.cap then
    some { p with parameters := p.parameters ++ [{ Key := key, Value := value }] }
  else none

/-- Children are structurally smaller than their parent (for the
termination of the tree walks). -/
theorem sizeOf_lt_of_mem_children {c n : Node} (h : c ∈ n.children) :
    sizeOf c < sizeOf n := by
  have h1 := List.sizeOf_lt_of_mem h
  cases n with
  | mk p rp ch idx w ty mp pr hd =>
    simp only [Node.children] at h1
    simp only [Node.mk.sizeOf_spec]
    omega

/-- The final trailing-slash-recommendation closure at the bottom of the
Resolve walk loop. -/
def Node.resolveFallbackTsr (n : Node) (path : Bytes) : Bool :=
  if path = [47] then true
  else if n.path.length = path.length + 1 ∧ n.path.getD path.length 0 = 47 ∧
      path = n.path.take (n.path.length - 1) ∧ n.handler.isSome then true
  else false

/-- The walk loop of Resolve, threaded through the tree and fueled (one
fuel unit per walk iteration): returns ((handler, params, tsr),
tree-after-the-call).  `none` models a panic (the invalid-node-type branch,
an out-of-range child access, a slice of an empty node path, or a parameter
reslice beyond its capacity) or fuel exhaustion. -/
def Node.resolveWalk :
    Nat → Node → Bytes → Option PathParameters →
    Option ((Option Nat × Option PathParameters × Bool) × Node)
  | 0, _, _, _ => none
  | fuel + 1, n, path, ps =>
  if path.length > n.path.length then
    if path.take n.path.length = n.path then
      let path2 := path.drop n.path.length
      if n.wildChild = false then
        match path2 with
        | [] => none
        | ca :: _ =>
          match findIndexPos n.indices ca with
          | some i =>
            match getIdx n.children i with
            | none => none
            | some c =>
              match Node.resolveWalk fuel c.1 path2 ps with
              | none => none
              | some (r, c2) =>
                some (r, { n with children := n.children.set i c2 })
          | none =>
            some ((none, ps, (path2 == [47]) && n.handler.isSome), n)
      else
        match getIdx n.children 0 with
        | none => none
        | some c =>
          match c.1.nodeType with
          | NodeType.param =>
            let endIdx := (path2.takeWhile (fun b => b ≠ 47)).length
            let p0 := match ps with
              | none => NewPathParameters c.1.routePath c.1.maxParameters
              | some p => p
            if p0.parameters.length + 1 ≤ p0.cap then
              match c.1.path with
              | [] => none
              | _ :: keyRest =>
                let p1 := { p0 with parameters :=
                    p0.parameters ++ [{ Key := keyRest, Value := path2.take endIdx }] }
                if endIdx < path2.length then
                  match getIdx c.1.children 0 with
                  | some cc =>
                    match Node.resolveWalk fuel cc.1 (path2.drop endIdx) (some p1) with
                    | none => none
                    | some (r, cc2) =>
                      let c2 := { c.1 with children := c.1.children.set 0 cc2 }
                      some (r, { n with children := n.children.set 0 c2 })
                  | none =>
                    some ((none, some p1, path2.length == endIdx + 1), n)
                else
                  match c.1.handler with
                  | some h =>
                    let p2 := if c.1.routePath.length > 0 then
                        { p1 with route := c.1.routePath } else p1
                    some ((some h, some p2, false), n)
                  | none =>
                    if c.1.children.length = 1 then
                      match getIdx c.1.children 0 with
                      | some cc =>
                        some ((none, some p1,
                          (cc.1.path == [47]) && cc.1.handler.isSome), n)
                      | none => none
                    else some ((none, some p1, false), n)
            else none
          | NodeType.catchAll =>
            let p0 := match ps with
              | none => NewPathParameters c.1.routePath c.1.maxParameters
              | some p => p
            if p0.parameters.length + 1 ≤ p0.cap then
              if 2 ≤ c.1.path.length then
                let p1 := { p0 with parameters :=
                    p0.parameters ++ [{ Key := c.1.path.drop 2, Value := path2 }] }
                some ((c.1.handler, some p1, false), n)
              else none
            else none
          | _ => none
    else
      some ((none, ps, n.resolveFallbackTsr path), n)
  else if path = n.path then
    match n.handler with
    | some h =>
      let ps2 := match ps with
        | some p =>
          if n.routePath.length > 0 then some { p with route := n.routePath }
          else some p
        | none => none
      some ((some h, ps2, false), n)
    | none =>
      match findIndexPos n.indices 47 with
      | some i =>
        match getIdx n.children i with
        | none => none
        | some c =>
          let ps2 := ps.map (fun p => { p with route := c.1.routePath })
          if (c.1.path == [47]) && c.1.handler.isSome then
            some ((none, ps2, true), n)
          else if c.1.nodeType = NodeType.catchAll then
            match getIdx c.1.children 0 with
            | none => none
            | some cc => some ((none, ps2, cc.1.handler.isSome), n)
          else some ((none, ps2, false), n)
      | none => some ((none, ps, false), n)
  else
    some ((none, ps, n.resolveFallbackTsr path), n)

/-- Resolve of the source, threaded through the tree: returns
((handler, params, tsr), tree-after-the-call); `none` models a panic or
fuel exhaustion. -/
def Node.Resolve (n : Node) (path : Bytes) (fuel : Nat) :
    Option ((Option Nat × Option PathParameters × Bool) × Node) :=
  Node.resolveWalk fuel n path none

/-- The 4-byte rune buffer of the case-insensitive walker. -/
abbrev RuneBuf := Nat × Nat × Nat × Nat

/-- shiftNRuneBytes: shift the buffer left by `k` bytes, filling with
zeros. -/
def shiftNRuneBytes (rb : RuneBuf) (k : Nat) : RuneBuf :=
  match k with
  | 0 => rb
  | 1 => (rb.2.1, rb.2.2.1, rb.2.2.2, 0)
  | 2 => (rb.2.2.1, rb.2.2.2, 0, 0)
  | 3 => (rb.2.2.2, 0, 0, 0)
  | _ => (0, 0, 0, 0)

/-- Modelled from Go's utf8.RuneStart: a byte that is not a UTF-8
continuation byte (b & 0xC0 != 0x80). -/
def runeStart (b : Nat) : Bool := b / 64 ≠ 2

/-- Modelled from Go's utf8.DecodeRuneInString: the decoded rune value
(0xFFFD on malformed input).  Exact on the ASCII range exercised by the
statements below; surrogate/overlong rejection of multi-byte input is
simplified. -/
def decodeRune : Bytes → Nat
  | [] => 0xFFFD
  | b0 :: rest =>
    if b0 < 0x80 then b0
    else if b0 < 0xC2 then 0xFFFD
    else if b0 < 0xE0 then
      match rest with
      | b1 :: _ =>
        if 0x80 ≤ b1 ∧ b1 < 0xC0 then (b0 - 0xC0) * 64 + (b1 - 0x80)
        else 0xFFFD
      | [] => 0xFFFD
    else if b0 < 0xF0 then
      match rest with
      | b1 :: b2 :: _ =>
        if 0x80 ≤ b1 ∧ b1 < 0xC0 ∧ 0x80 ≤ b2 ∧ b2 < 0xC0 then
          (b0 - 0xE0) * 4096 + (b1 - 0x80) * 64 + (b2 - 0x80)
        else 0xFFFD
      | _ => 0xFFFD
    else if b0 < 0xF5 then
      match rest with
      | b1 :: b2 :: b3 :: _ =>
        if 0x80 ≤ b1 ∧ b1 < 0xC0 ∧ 0x80 ≤ b2 ∧ b2 < 0xC0 ∧ 0x80 ≤ b3 ∧ b3 < 0xC0 then
          (b0 - 0xF0) * 262144 + (b1 - 0x80) * 4096 + (b2 - 0x80) * 64 + (b3 - 0x80)
        else 0xFFFD
      | _ => 0xFFFD
    else 0xFFFD

/-- Modelled from Go's unicode.ToLower, exact on the ASCII range; non-ASCII
runes are left unchanged (the statements below only exercise ASCII). -/
def toLowerRune (r : Nat) : Nat := if 65 ≤ r ∧ r ≤ 90 then r + 32 else r

/-- Modelled from Go's unicode.ToUpper, exact on the ASCII range; non-ASCII
runes are left unchanged. -/
def toUpperRune (r : Nat) : Nat := if 97 ≤ r ∧ r ≤ 122 then r - 32 else r

/-- Modelled from Go's utf8.EncodeRune into the 4-byte buffer: the encoded
bytes overwrite the front of the buffer, the remaining bytes keep their old
values. -/
def encodeRune (rb : RuneBuf) (r : Nat) : RuneBuf :=
  if r < 0x80 then (r, rb.2.1, rb.2.2.1, rb.2.2.2)
  else if r < 0x800 then (0xC0 + r / 64, 0x80 + r % 64, rb.2.2.1, rb.2.2.2)
  else if r < 0x10000 then
    (0xE0 + r / 4096, 0x80 + (r / 64) % 64, 0x80 + r % 64, rb.2.2.2)
  else (0xF0 + r / 262144, 0x80 + (r / 4096) % 64, 0x80 + (r / 64) % 64, 0x80 + r % 64)

/-- Modelled from Go's strings.EqualFold.  Exact for ASCII bytes (the only
case the statements below exercise); for a pair of non-ASCII bytes the
Unicode simple fold is approximated by exact byte equality. -/
def equalFold : Bytes → Bytes → Bool
  | [], [] => true
  | a :: as, b :: bs2 =>
    if a < 128 ∨ b < 128 then
      (toLowerRune a == toLowerRune b) && equalFold as bs2
    else
      (a == b) && equalFold as bs2
  | _, _ => false

/-- The rune-start search of the walker (`for max := min(npLen, 3); ...`):
starting at offset `off` with `k` window positions left, find the start of
the rune that ends at the npLen boundary of `oldPath` and decode it.
Returns (rune value, offset); the rune value is 0 when the window holds no
rune start. -/
def runeStartLoop (oldPath : Bytes) (npLen : Nat) : Nat → Nat → Nat × Nat
  | 0, off => (0, off)
  | k + 1, off =>
    if runeStart (oldPath.getD (npLen - off) 0) then
      (decodeRune (oldPath.drop (npLen - off)), off)
    else runeStartLoop oldPath npLen k (off + 1)

/-- findCaseInsensitivePathRec of the source, threaded through the tree and
fueled (one fuel unit per walk iteration or recursive branch; `none` covers
the invalid-node-type panic, runtime index panics, and fuel exhaustion).
Returns (found canonical path or not-found, tree after the call).  The
uppercase fall-through section of the source appears twice below because
both the failed recursive lowercase branch and the missing lowercase index
fall through to it. -/
def Node.findCaseInsensitivePathRec :
    Nat → Node → Bytes → Bytes → RuneBuf → Bool → Option (Option Bytes × Node)
  | 0, _, _, _, _, _ => none
  | fuel + 1, n, path, ciPath, rb, fixTrailingSlash =>
    if path.length ≥ n.path.length ∧
        (n.path.length = 0 ∨
          equalFold ((path.take n.path.length).drop 1) (n.path.drop 1)) then
      let oldPath := path
      let path2 := path.drop n.path.length
      let ciPath2 := ciPath ++ n.path
      if path2.length > 0 then
        if n.wildChild = false then
          let rb1 := shiftNRuneBytes rb n.path.length
          if rb1.1 ≠ 0 then
            match findIndexPos n.indices rb1.1 with
            | some i =>
              match getIdx n.children i with
              | none => none
              | some c =>
                match Node.findCaseInsensitivePathRec fuel c.1 path2 ciPath2 rb1
                    fixTrailingSlash with
                | none => none
                | some (r, c2) =>
                  some (r, { n with children := n.children.set i c2 })
            | none =>
              if fixTrailingSlash ∧ path2 = [47] ∧ n.handler.isSome then
                some (some ciPath2, n)
              else some (none, n)
          else
            let rvOff := runeStartLoop oldPath n.path.length (min n.path.length 3) 0
            let rv := rvOff.1
            let off := rvOff.2
            let lo := toLowerRune rv
            let rb2 := shiftNRuneBytes (encodeRune rb1 lo) off
            match findIndexPos n.indices rb2.1 with
            | some i =>
              match getIdx n.children i with
              | none => none
              | some c =>
                match Node.findCaseInsensitivePathRec fuel c.1 path2 ciPath2 rb2
                    fixTrailingSlash with
                | none => none
                | some (some out, c2) =>
                  some (some out, { n with children := n.children.set i c2 })
                | some (none, c2) =>
                  let n2 := { n with children := n.children.set i c2 }
                  let up := toUpperRune rv
                  if up ≠ lo then
                    let rb3 := shiftNRuneBytes (encodeRune rb2 up) off
                    match findIndexPos n2.indices rb3.1 with
                    | some j =>
                      match getIdx n2.children j with
                      | none => none
                      | some cj =>
                        match Node.findCaseInsensitivePathRec fuel cj.1 path2 ciPath2
                            rb3 fixTrailingSlash with
                        | none => none
                        | some (r, cj2) =>
                          some (r, { n2 with children := n2.children.set j cj2 })
                    | none =>
                      if fixTrailingSlash ∧ path2 = [47] ∧ n2.handler.isSome then
                        some (some ciPath2, n2)
                      else some (none, n2)
                  else
                    if fixTrailingSlash ∧ path2 = [47] ∧ n2.handler.isSome then
                      some (some ciPath2, n2)
                    else some (none, n2)
            | none =>
              let up := toUpperRune rv
              if up ≠ lo then
                let rb3 := shiftNRuneBytes (encodeRune rb2 up) off
                match findIndexPos n.indices rb3.1 with
                | some j =>
                  match getIdx n.children j with
                  | none => none
                  | some cj =>
                    match Node.findCaseInsensitivePathRec fuel cj.1 path2 ciPath2
                        rb3 fixTrailingSlash with
                    | none => none
                    | some (r, cj2) =>
                      some (r, { n with children := n.children.set j cj2 })
                | none =>
                  if fixTrailingSlash ∧ path2 = [47] ∧ n.handler.isSome then
                    some (some ciPath2, n)
                  else some (none, n)
              else
                if fixTrailingSlash ∧ path2 = [47] ∧ n.handler.isSome then
                  some (some ciPath2, n)
                else some (none, n)
        else
          match getIdx n.children 0 with
          | none => none
          | some c =>
            match c.1.nodeType with
            | NodeType.param =>
              let endIdx := (path2.takeWhile (fun b => b ≠ 47)).length
              let ciPath3 := ciPath2 ++ path2.take endIdx
              if endIdx < path2.length then
                match getIdx c.1.children 0 with
                | some cc =>
                  match Node.findCaseInsensitivePathRec fuel cc.1 (path2.drop endIdx)
                      ciPath3 rb fixTrailingSlash with
                  | none => none
                  | some (r, cc2) =>
                    let c2 := { c.1 with children := c.1.children.set 0 cc2 }
                    some (r, { n with children := n.children.set 0 c2 })
                | none =>
                  if fixTrailingSlash ∧ path2.length = endIdx + 1 then
                    some (some ciPath3, n)
                  else some (none, n)
              else
                if c.1.handler.isSome then some (some ciPath3, n)
                else if fixTrailingSlash ∧ c.1.children.length = 1 then
                  match getIdx c.1.children 0 with
                  | none => none
                  | some cc =>
                    if cc.1.path = [47] ∧ cc.1.handler.isSome then
                      some (some (ciPath3 ++ [47]), n)
                    else some (none, n)
                else some (none, n)
            | NodeType.catchAll => some (some (ciPath2 ++ path2), n)
            | _ => none
      else
        if n.handler.isSome then some (some ciPath2, n)
        else if fixTrailingSlash then
          match findIndexPos n.indices 47 with
          | some i =>
            match getIdx n.children i with
            | none => none
            | some c =>
              if c.1.path.length = 1 ∧ c.1.handler.isSome then
                some (some (ciPath2 ++ [47]), n)
              else if c.1.nodeType = NodeType.catchAll then
                match getIdx c.1.children 0 with
                | none => none
                | some cc =>
                  if cc.1.handler.isSome then some (some (ciPath2 ++ [47]), n)
                  else some (none, n)
              else some (none, n)
          | none => some (none, n)
        else some (none, n)
    else
      if fixTrailingSlash = false then some (none, n)
      else if path = [47] then some (some ciPath, n)
      else if n.handler = none then some (none, n)
      else if path.length + 1 ≠ n.path.length then some (none, n)
      else if n.path.getD path.length 0 ≠ 47 then some (none, n)
      else
        match path with
        | [] => none
        | _ :: _ =>
          if equalFold (path.drop 1) ((n.path.take path.length).drop 1) then
            some (some (ciPath ++ n.path), n)
          else some (none, n)

/-- findCaseInsensitivePath of the source: runs the recursive walker on an
empty output buffer and empty rune buffer; found is ciPath != nil. -/
def Node.findCaseInsensitivePath (n : Node) (path : Bytes)
    (fixTrailingSlash : Bool) (fuel : Nat) : Option ((Bytes × Bool) × Node) :=
  match Node.findCaseInsensitivePathRec fuel n path [] (0, 0, 0, 0)
      fixTrailingSlash with
  | none => none
  | some (none, n2) => some (([], false), n2)
  | some (some out, n2) => some ((out, true), n2)

/-- Successive AddRoute calls building a tree from the empty root (fuel 64
per call); `none` if any insertion fails or runs out of fuel. -/
def mkTree (rs : List (Bytes × Option Nat)) : Option Node :=
  rs.foldlM (fun t r =>
    match t.AddRoute r.1 r.2 64 with
    | some (Except.ok t2) => some t2
    | _ => none) emptyNode

/-- Projection of a successful AddRoute call: the updated tree, or none on
failure. -/
def addOkTree (t : Node) (path : Bytes) (h : Option Nat) (fuel : Nat) : Option Node :=
  match t.AddRoute path h fuel with
  | some (Except.ok t2) => some t2
  | _ => none

/-- Byte-wise ASCII lowercasing of a pattern. -/
def lowerBytes (b : Bytes) : Bytes := b.map toLowerRune

/-- A sequence of AddParameter calls, stopping at the first failure. -/
def addParams (p : PathParameters) (kvs : List (Bytes × Bytes)) :
    Option PathParameters :=
  kvs.foldlM (fun q kv => q.AddParameter kv.1 kv.2) p

/-- Priorities of a children list, most significant first. -/
def prios (l : List Node) : List Nat := l.map Node.priority

/-- Descending-priority ordering of a children list. -/
def SortedDesc (l : List Node) : Prop :=
  List.Pairwise (fun a b => b.priority ≤ a.priority) l

/-- Node-in-tree membership: reflexive closure of the child relation. -/
inductive MemTree : Node → Node → Prop where
  | refl (n : Node) : MemTree n n
  | child {m c n : Node} : c ∈ n.children → MemTree m c → MemTree m n

/-- Trees reachable from the empty tree by successful AddRoute calls
(any fuel: a run that returns `some (ok t)` is a terminating Go run). -/
inductive Reachable : Node → Prop where
  | empty : Reachable emptyNode
  | step {t t' : Node} (path : Bytes) (h : Option Nat) (fuel : Nat) :
      Reachable t → t.AddRoute path h fuel = some (Except.ok t') → Reachable t'

/-- Descending-priority order between siblings. -/
def PrioGE (a b : Node) : Prop := b.priority ≤ a.priority

instance (a b : Node) : Decidable (PrioGE a b) := by
  unfold PrioGE; infer_instance

/-- Sortedness invariant: every node of the tree has its children sorted by
descending priority. -/
inductive InvA : Node → Prop where
  | mk {n : Node} : List.Pairwise PrioGE n.children →
      (∀ c ∈ n.children, InvA c) → InvA n

/-- Concrete two-route tree (routes /x then /y) used as witness data. -/
def c8wChildX : Node :=
  { emptyNode with path := [120], priority := 1, handler := some 1 }

def c8wChildY : Node :=
  { emptyNode with
    path := [121]
    routePath := [47, 121]
    priority := 1
    handler := some 2 }

def c8wTree2 : Node :=
  { emptyNode with
    path := [47]
    children := [c8wChildX, c8wChildY]
    indices := [120, 121]
    priority := 2 }

def c8wTree2sw : Node :=
  { emptyNode with
    path := [47]
    children := [{ c8wChildY with priority := 2 }, c8wChildX]
    indices := [121, 120]
    priority := 2 }

theorem getIdx_some {α : Type} {l : List α} {i : Nat} {c : {x // x ∈ l}}
    (h : getIdx l i = some c) : l[i]? = some c.1 := by
  induction l generalizing i with
  | nil => simp [getIdx] at h
  | cons a as ih =>
    cases i with
    | zero =>
      simp [getIdx] at h
      simp [← h]
    | succ j =>
      simp only [getIdx] at h
      cases hx : getIdx as j with
      | none => rw [hx] at h; simp at h
      | some x =>
        rw [hx] at h
        simp at h
        have := ih hx
        simp [List.getElem?_cons_succ, this, ← h]

theorem list_set_mem_self {α : Type} (l : List α) (i : Nat) (x : α)
    (h : l[i]? = some x) : l.set i x = l := by
  induction l generalizing i with
  | nil => simp
  | cons a as ih =>
    cases i with
    | zero => simp at h; simp [h]
    | succ j => simp at h ⊢; exact ih j h

theorem set_getIdx_self {l : List Node} {i : Nat} {c : {x // x ∈ l}}
    (h : getIdx l i = some c) : l.set i c.1 = l :=
  list_set_mem_self l i c.1 (getIdx_some h)

theorem node_children_eta (n : Node) : { n with children := n.children } = n := by
  cases n
  rfl

theorem single_set_eta {n : Node} {i : Nat} {c : {x // x ∈ n.children}}
    (hc : getIdx n.children i = some c) :
    { n with children := n.children.set i c.1 } = n := by
  rw [set_getIdx_self hc, node_children_eta]

theorem double_set_eta {n : Node} {c : {x // x ∈ n.children}}
    {cc : {x // x ∈ c.1.children}}
    (hc : getIdx n.children 0 = some c)
    (hcc : getIdx c.1.children 0 = some cc) :
    { n with children :=
        n.children.set 0 ({ c.1 with children := c.1.children.set 0 cc.1 }) } = n := by
  rw [set_getIdx_self hcc, node_children_eta, set_getIdx_self hc, node_children_eta]

theorem resolveWalk_tree_id :
    ∀ (fuel : Nat) (n : Node) (path : Bytes) (ps : Option PathParameters) r,
      Node.resolveWalk fuel n path ps = some r → r.2 = n := by
  intro fuel
  induction fuel with
  | zero => intro n path ps r h; simp [Node.resolveWalk] at h
  | succ fuel ih =>
    intro n path ps r h
    simp only [Node.resolveWalk] at h
    repeat' split at h
    all_goals (try cases h)
    all_goals (try rfl)
    all_goals (
      first
      | rfl
      | (have hsub := ih _ _ _ _ (by assumption)
         dsimp only at hsub
         subst hsub
         first
         | exact single_set_eta (by assumption)
         | exact double_set_eta (by assumption) (by assumption)))

theorem findCIRec_tree_id :
    ∀ (fuel : Nat) (n : Node) (path ciPath : Bytes) (rb : RuneBuf) (fix : Bool) r,
      Node.findCaseInsensitivePathRec fuel n path ciPath rb fix = some r → r.2 = n := by
  intro fuel
  induction fuel with
  | zero => intro n path ciPath rb fix r h; simp [Node.findCaseInsensitivePathRec] at h
  | succ fuel ih =>
    intro n path ciPath rb fix r h
    simp only [Node.findCaseInsensitivePathRec] at h
    repeat' split at h
    all_goals (try cases h)
    all_goals (try rfl)
    all_goals (
      first
      | rfl
      | (try (have hsubL := ih _ _ _ _ _ _
                (by assumption :
                  Node.findCaseInsensitivePathRec _ _ _ _ _ _ = some (none, _))
              dsimp only at hsubL
              subst hsubL)
         try (have hsub := ih _ _ _ _ _ _ (by assumption)
              dsimp only at hsub
              first
              | subst hsub
              | rw [hsub])
         first
         | exact single_set_eta (by assumption)
         | exact double_set_eta (by assumption) (by assumption)
         | (rw [set_getIdx_self (by assumption)]
            exact single_set_eta (by assumption))))


theorem addParams_ok (kvs : List (Bytes × Bytes)) (p : PathParameters)
    (h : p.parameters.length + kvs.length ≤ p.cap) :
    ∃ q, addParams p kvs = some q ∧
      q.parameters.length = p.parameters.length + kvs.length ∧ q.cap = p.cap := by
  induction kvs generalizing p with
  | nil => exact ⟨p, rfl, by simp, rfl⟩
  | cons kv rest ih =>
    obtain ⟨r, cap, params⟩ := p
    replace h : params.length + (kv :: rest).length ≤ cap := h
    simp only [List.length_cons] at h
    have hstep : params.length + 1 ≤ cap := by omega
    have hadd : PathParameters.AddParameter ⟨r, cap, params⟩ kv.1 kv.2 =
        some ⟨r, cap, params ++ [{ Key := kv.1, Value := kv.2 }]⟩ := by
      simp [PathParameters.AddParameter, hstep]
    obtain ⟨q, hq, hlen, hcap⟩ := ih ⟨r, cap, params ++ [{ Key := kv.1, Value := kv.2 }]⟩
      (by simp; omega)
    refine ⟨q, ?_, ?_, hcap⟩
    · simp only [addParams, List.foldlM_cons, hadd]
      exact hq
    · replace hlen : q.parameters.length = (params ++ [({ Key := kv.1, Value := kv.2 } : PathParameter)]).length + rest.length := hlen
      show q.parameters.length = params.length + (kv :: rest).length
      simp at hlen ⊢
      omega

theorem addParams_overflow (kvs : List (Bytes × Bytes)) (p : PathParameters)
    (hstart : p.parameters.length ≤ p.cap)
    (h : p.cap < p.parameters.length + kvs.length) :
    addParams p kvs = none := by
  induction kvs generalizing p with
  | nil => simp at h; omega
  | cons kv rest ih =>
    obtain ⟨r, cap, params⟩ := p
    replace h : cap < params.length + (kv :: rest).length := h
    replace hstart : params.length ≤ cap := hstart
    simp only [List.length_cons] at h
    by_cases hstep : params.length + 1 ≤ cap
    · have hadd : PathParameters.AddParameter ⟨r, cap, params⟩ kv.1 kv.2 =
          some ⟨r, cap, params ++ [{ Key := kv.1, Value := kv.2 }]⟩ := by
        simp [PathParameters.AddParameter, hstep]
      simp only [addParams, List.foldlM_cons, hadd]
      exact ih _ (by simpa using hstep) (by simp; omega)
    · have hadd : PathParameters.AddParameter ⟨r, cap, params⟩ kv.1 kv.2 = none := by
        simp [PathParameters.AddParameter]
        omega
      simp only [addParams, List.foldlM_cons, hadd]
      rfl

/-- C10: a PathParameters created by NewPathParameters(route, n) never
grows beyond its preallocated capacity: any n AddParameter calls succeed
(the list then has exactly those n entries), and an (n+1)-th call fails
with the reslice panic instead of appending. -/
theorem c10_params_capacity (route : Bytes) (n : Nat)
    (kvs : List (Bytes × Bytes)) :
    (kvs.length ≤ n →
      ∃ q, addParams (NewPathParameters route n) kvs = some q ∧
        q.parameters.length = kvs.length) ∧
    (kvs.length = n + 1 → addParams (NewPathParameters route n) kvs = none) := by
  constructor
  · intro hle
    obtain ⟨q, hq, hlen, _⟩ := addParams_ok kvs (NewPathParameters route n)
      (by simp [NewPathParameters]; omega)
    exact ⟨q, hq, by simpa [NewPathParameters] using hlen⟩
  · intro hlen
    exact addParams_overflow kvs (NewPathParameters route n)
      (by simp [NewPathParameters]) (by simp [NewPathParameters, hlen])

/-- Witness for C10 at n = 1: two AddParameter calls on a capacity-1
PathParameters fail. -/
theorem c10_params_capacity_witness :
    addParams (NewPathParameters [] 1) [([1], [2]), ([3], [4])] = none :=
  (c10_params_capacity [] 1 [([1], [2]), ([3], [4])]).2 rfl

/-- C5: with only the route /x registered, Resolve("/x/") returns a nil
handler with tsr = true; with only the route /b/ registered, Resolve("/b")
returns a nil handler with tsr = true. -/
theorem c5_trailing_slash_recommendation :
    (mkTree [(bsv "/x", some 1)]).bind
        (fun t => (t.Resolve (bsv "/x/") 64).map Prod.fst) =
      some (none, none, true) ∧
    (mkTree [(bsv "/b/", some 1)]).bind
        (fun t => (t.Resolve (bsv "/b") 64).map Prod.fst) =
      some (none, none, true) :=
  ⟨rfl, rfl⟩

/-- C4 counterexample: after the single insertion of /u/:id, the root node
has one child (the :id parameter node) but an empty indices slice, so
len(children) == len(indices) fails on a reachable tree (the source's
wildcard-insertion branch sets children without appending an index byte). -/
theorem c4_counterexample :
    (mkTree [(bsv "/u/:id", some 1)]).map
      (fun t => decide (t.children.length = t.indices.length)) = some false :=
  rfl

/-- C1, evaluated at the failing input: after registering /cmd/:tool/a,
/cmd/:tool/subway and /cmd/:tool/sub (in that order), resolving
/cmd/x/subway returns the handler registered for /cmd/:tool/subway (2) but
a PathParameters whose route field is /cmd/:tool/a, not /cmd/:tool/subway:
the common-prefix split in AddRoute moves the handler into the new child
without copying routePath, so the route recorded at ps creation time is
never corrected. -/
theorem c1_route_lost_on_split :
    (mkTree [(bsv "/cmd/:tool/a", some 1), (bsv "/cmd/:tool/subway", some 2),
             (bsv "/cmd/:tool/sub", some 3)]).bind
        (fun t => (t.Resolve (bsv "/cmd/x/subway") 64).map Prod.fst) =
      some (some 2,
        some { route := bsv "/cmd/:tool/a", cap := 1,
               parameters := [{ Key := bsv "tool", Value := bsv "x" }] },
        false) ∧
    bsv "/cmd/:tool/a" ≠ bsv "/cmd/:tool/subway" := by
  constructor
  · rfl
  · decide

/-- C7 counterexample: with the two all-ASCII patterns /AB and /ab
registered, findCaseInsensitivePath on lowercase("/AB") = "/ab" returns
("/ab", true) for either flag value, not ("/AB", true) as the claim
demands for P = "/AB". -/
theorem c7_counterexample :
    (mkTree [(bsv "/AB", some 1), (bsv "/ab", some 2)]).bind
        (fun t => (t.findCaseInsensitivePath (lowerBytes (bsv "/AB")) true 64).map
          Prod.fst) = some (bsv "/ab", true) ∧
    (mkTree [(bsv "/AB", some 1), (bsv "/ab", some 2)]).bind
        (fun t => (t.findCaseInsensitivePath (lowerBytes (bsv "/AB")) false 64).map
          Prod.fst) = some (bsv "/ab", true) ∧
    bsv "/ab" ≠ bsv "/AB" := by
  refine ⟨rfl, rfl, ?_⟩
  decide

/-- C9: Resolve and findCaseInsensitivePath leave every node of the tree
unchanged: whenever the threaded walks return, the tree they hand back is
the tree they were given. -/
theorem c9_walks_leave_tree_unchanged :
    (∀ (fuel : Nat) (n : Node) (path : Bytes) (ps : Option PathParameters) r,
       Node.resolveWalk fuel n path ps = some r → r.2 = n) ∧
    (∀ (fuel : Nat) (n : Node) (path ciPath : Bytes) (rb : RuneBuf) (fix : Bool) r,
       Node.findCaseInsensitivePathRec fuel n path ciPath rb fix = some r →
         r.2 = n) :=
  ⟨resolveWalk_tree_id, findCIRec_tree_id⟩

/-- Witness for C9 at a concrete tree and path. -/
theorem c9_walks_leave_tree_unchanged_witness :
    Node.resolveWalk 1 emptyNode [47] none = some ((none, none, false), emptyNode) ∧
    (((none, none, false), emptyNode) :
      (Option Nat × Option PathParameters × Bool) × Node).2 = emptyNode ∧
    Node.findCaseInsensitivePathRec 1 emptyNode [47] [] (0, 0, 0, 0) false =
      some (none, emptyNode) ∧
    ((none, emptyNode) : Option Bytes × Node).2 = emptyNode :=
  ⟨rfl, c9_walks_leave_tree_unchanged.1 1 emptyNode [47] none _ rfl, rfl,
    c9_walks_leave_tree_unchanged.2 1 emptyNode [47] [] (0, 0, 0, 0) false _ rfl⟩


theorem wildEnd_clean (name : Bytes) (hn : ∀ b ∈ name, b ≠ 58 ∧ b ≠ 42 ∧ b ≠ 47) :
    wildEnd name = some name.length := by
  induction name with
  | nil => rfl
  | cons c rest ih =>
    have hc := hn c (List.mem_cons_self c rest)
    have hr : ∀ b ∈ rest, b ≠ 58 ∧ b ≠ 42 ∧ b ≠ 47 :=
      fun b hb => hn b (List.mem_cons_of_mem c hb)
    simp [wildEnd, hc.1, hc.2.1, hc.2.2, ih hr]

theorem insertChildScan_clean (routePath path : Bytes) (handler : Option Nat)
    (pcp : Nat) (p : Bytes) (hp : ∀ b ∈ p, b ≠ 58 ∧ b ≠ 42) :
    ∀ (n : Node) (offset i : Nat) (rest : Bytes),
      Node.insertChildScan routePath path handler (pcp + 1) n offset i (p ++ rest) =
      Node.insertChildScan routePath path handler (pcp + 1) n offset (i + p.length) rest := by
  induction p with
  | nil => intro n offset i rest; simp
  | cons c prest ih =>
    intro n offset i rest
    have hc := hp c (List.mem_cons_self c prest)
    have hr : ∀ b ∈ prest, b ≠ 58 ∧ b ≠ 42 :=
      fun b hb => hp b (List.mem_cons_of_mem c hb)
    have step : Node.insertChildScan routePath path handler (pcp + 1) n offset i
        ((c :: prest) ++ rest) =
        Node.insertChildScan routePath path handler (pcp + 1) n offset (i + 1)
          (prest ++ rest) := by
      simp [Node.insertChildScan, hc.1, hc.2]
    rw [step, ih hr]
    congr 1
    simp
    omega

theorem catchAll_insert_shape (p name : Bytes) (h : Option Nat) (fuel : Nat)
    (hp : ∀ b ∈ p, b ≠ 58 ∧ b ≠ 42)
    (hname : name ≠ [])
    (hnb : ∀ b ∈ name, b ≠ 58 ∧ b ≠ 42 ∧ b ≠ 47) :
    emptyNode.AddRoute (p ++ 47 :: 42 :: name) h fuel =
      some (Except.ok
        { path := p, routePath := [],
          children := [
            { path := [], routePath := [],
              children := [
                { path := 47 :: 42 :: name, routePath := p ++ 47 :: 42 :: name,
                  children := [], indices := [], wildChild := false,
                  nodeType := NodeType.catchAll, maxParameters := 1,
                  priority := 1, handler := h }],
              indices := [], wildChild := true, nodeType := NodeType.catchAll,
              maxParameters := 1, priority := 1, handler := none }],
          indices := [47], wildChild := false, nodeType := NodeType.static,
          maxParameters := 0, priority := 1, handler := none }) := by
  have h0 : p.countP (fun c => c == 58 || c == 42) = 0 := by
    apply List.countP_eq_zero.mpr
    intro b hb
    have := hp b hb
    simp [this.1, this.2]
  have h1 : name.countP (fun c => c == 58 || c == 42) = 0 := by
    apply List.countP_eq_zero.mpr
    intro b hb
    have := hnb b hb
    simp [this.1, this.2.1]
  have hcount : countRequestPathParams (p ++ 47 :: 42 :: name) = 1 := by
    simp [countRequestPathParams, List.countP_append, List.countP_cons, h0, h1]
  have hlen : (p ++ 47 :: 42 :: name).length = p.length + 2 + name.length := by
    simp; omega
  simp only [Node.AddRoute, emptyNode, hcount]
  norm_num
  rw [show Node.insertChild _ 1 _ _ _ =
    Node.insertChildScan (p ++ 47 :: 42 :: name) (p ++ 47 :: 42 :: name) h 1
      { path := [], routePath := [], children := [], indices := [],
        wildChild := false, nodeType := NodeType.static, maxParameters := 0,
        priority := 1, handler := none } 0 0 (p ++ 47 :: 42 :: name) from rfl]
  rw [insertChildScan_clean _ _ _ 0 p hp]
  have hstep1 : Node.insertChildScan (p ++ 47 :: 42 :: name) (p ++ 47 :: 42 :: name) h 1
      { path := [], routePath := [], children := [], indices := [],
        wildChild := false, nodeType := NodeType.static, maxParameters := 0,
        priority := 1, handler := none } 0 (0 + p.length) (47 :: 42 :: name) =
      Node.insertChildScan (p ++ 47 :: 42 :: name) (p ++ 47 :: 42 :: name) h 1
      { path := [], routePath := [], children := [], indices := [],
        wildChild := false, nodeType := NodeType.static, maxParameters := 0,
        priority := 1, handler := none } 0 (0 + p.length + 1) (42 :: name) := by
    simp [Node.insertChildScan]
  rw [hstep1]
  have hgd : (p ++ 47 :: 42 :: name).getD p.length 0 = 47 := by
    have h2 : (p ++ 47 :: 42 :: name)[p.length]? = some 47 := by
      rw [List.getElem?_append_right (le_refl _)]
      simp
    simp [List.getD_eq_getElem?_getD, h2]
  have hnlen : 1 ≤ name.length := List.length_pos.mpr hname
  have hstep2 : Node.insertChildScan (p ++ 47 :: 42 :: name) (p ++ 47 :: 42 :: name) h 1
      { path := [], routePath := [], children := [], indices := [],
        wildChild := false, nodeType := NodeType.static, maxParameters := 0,
        priority := 1, handler := none } 0 (0 + p.length + 1) (42 :: name) =
      Except.ok
        { path := p, routePath := [],
          children := [
            { path := [], routePath := [],
              children := [
                { path := 47 :: 42 :: name, routePath := p ++ 47 :: 42 :: name,
                  children := [], indices := [], wildChild := false,
                  nodeType := NodeType.catchAll, maxParameters := 1,
                  priority := 1, handler := h }],
              indices := [], wildChild := true, nodeType := NodeType.catchAll,
              maxParameters := 1, priority := 1, handler := none }],
          indices := [47], wildChild := false, nodeType := NodeType.static,
          maxParameters := 0, priority := 1, handler := none } := by
    simp only [Node.insertChildScan, wildEnd_clean name hnb]
    rw [if_neg (by norm_num)]
    rw [if_neg (by simp)]
    rw [if_neg (by omega)]
    rw [if_neg (by norm_num)]
    rw [if_neg (by simp only [hlen]; omega)]
    rw [if_neg (by simp)]
    rw [if_neg (by simp only [Nat.zero_add, hgd]; norm_num)]
    simp [emptyNode, List.take_left, List.drop_left]
  rw [hstep2]

theorem catchAll_resolve (p name restPath : Bytes) (h : Option Nat) (fuel : Nat) :
    Node.resolveWalk (fuel + 2)
      { path := p, routePath := [],
        children := [
          { path := [], routePath := [],
            children := [
              { path := 47 :: 42 :: name, routePath := p ++ 47 :: 42 :: name,
                children := [], indices := [], wildChild := false,
                nodeType := NodeType.catchAll, maxParameters := 1,
                priority := 1, handler := h }],
            indices := [], wildChild := true, nodeType := NodeType.catchAll,
            maxParameters := 1, priority := 1, handler := none }],
        indices := [47], wildChild := false, nodeType := NodeType.static,
        maxParameters := 0, priority := 1, handler := none }
      (p ++ 47 :: restPath) none =
    some ((h, some { route := p ++ 47 :: 42 :: name, cap := 1,
                     parameters := [{ Key := name, Value := 47 :: restPath }] },
           false),
      { path := p, routePath := [],
        children := [
          { path := [], routePath := [],
            children := [
              { path := 47 :: 42 :: name, routePath := p ++ 47 :: 42 :: name,
                children := [], indices := [], wildChild := false,
                nodeType := NodeType.catchAll, maxParameters := 1,
                priority := 1, handler := h }],
            indices := [], wildChild := true, nodeType := NodeType.catchAll,
            maxParameters := 1, priority := 1, handler := none }],
        indices := [47], wildChild := false, nodeType := NodeType.static,
        maxParameters := 0, priority := 1, handler := none }) := by
  have hdrop : (p ++ 47 :: restPath).drop p.length = 47 :: restPath := List.drop_left p _
  have htake : (p ++ 47 :: restPath).take p.length = p := List.take_left p _
  rw [show fuel + 2 = (fuel + 1) + 1 from rfl]
  simp only [Node.resolveWalk]
  rw [if_pos (by simp only [List.length_append, List.length_cons]; omega)]
  rw [if_pos (by simp only [htake])]
  simp only [hdrop]
  rw [if_pos trivial]
  simp [findIndexPos, getIdx, NewPathParameters]

/-- C6: with a catch-all pattern prefix/*name as the only registered route
(prefix free of wildcard bytes, name nonempty and free of wildcard and
slash bytes), resolving any path that extends the static prefix followed by
a slash returns the registered handler unconditionally, with a single
binding of name to the entire remaining path including its leading slash;
in particular with /src/*filepath registered, Resolve("/src/") binds
filepath to "/" and Resolve("/src/some/file.png") binds filepath to
"/some/file.png" (see the witness). -/
theorem c6_catch_all_binds_suffix (p name restPath : Bytes) (h : Option Nat)
    (fuel fuel2 : Nat)
    (hp : ∀ b ∈ p, b ≠ 58 ∧ b ≠ 42)
    (hname : name ≠ [])
    (hnb : ∀ b ∈ name, b ≠ 58 ∧ b ≠ 42 ∧ b ≠ 47) :
    (addOkTree emptyNode (p ++ 47 :: 42 :: name) h fuel).bind
      (fun t => (t.Resolve (p ++ 47 :: restPath) (fuel2 + 2)).map Prod.fst) =
    some (h, some { route := p ++ 47 :: 42 :: name, cap := 1,
                    parameters := [{ Key := name, Value := 47 :: restPath }] },
          false) := by
  have hins := catchAll_insert_shape p name h fuel hp hname hnb
  simp only [addOkTree, hins, Option.some_bind, Node.Resolve,
    catchAll_resolve p name restPath h fuel2]
  rfl

/-- Witness for C6 with /src/*filepath registered and the two requests
/src/ and /src/some/file.png from the claim. -/
theorem c6_catch_all_binds_suffix_witness :
    (addOkTree emptyNode (bsv "/src/*filepath") (some 4) 9).bind
      (fun t => (t.Resolve (bsv "/src/") 9).map Prod.fst) =
    some (some 4, some { route := bsv "/src/*filepath", cap := 1,
                         parameters := [{ Key := bsv "filepath", Value := bsv "/" }] },
          false) ∧
    (addOkTree emptyNode (bsv "/src/*filepath") (some 4) 9).bind
      (fun t => (t.Resolve (bsv "/src/some/file.png") 9).map Prod.fst) =
    some (some 4, some { route := bsv "/src/*filepath", cap := 1,
                         parameters := [{ Key := bsv "filepath",
                                          Value := bsv "/some/file.png" }] },
          false) := by
  constructor
  · exact c6_catch_all_binds_suffix (bsv "/src") (bsv "filepath") [] (some 4) 9 7
      (by decide) (by decide) (by decide)
  · exact c6_catch_all_binds_suffix (bsv "/src") (bsv "filepath")
      (bsv "some/file.png") (some 4) 9 7 (by decide) (by decide) (by decide)

theorem zip_set {α β : Type} : ∀ (l : List α) (m : List β) (i : Nat) (x : α) (y : β),
    (l.set i x).zip (m.set i y) = (l.zip m).set i (x, y)
  | [], _, _, _, _ => by simp
  | _ :: _, [], _, _, _ => by cases ‹Nat› <;> simp
  | a :: l, b :: m, 0, x, y => by simp
  | a :: l, b :: m, i + 1, x, y => by
    simp [List.set_cons_succ, zip_set l m i x y]

theorem perm_set_set_adj {α : Type} : ∀ (l : List α) (i : Nat) (x y : α),
    l[i]? = some x → l[i + 1]? = some y →
    ((l.set i y).set (i + 1) x).Perm l := by
  intro l i
  induction l generalizing i with
  | nil => intro x y hi _; simp at hi
  | cons a t ih =>
    intro x y hi hj
    cases i with
    | zero =>
      cases t with
      | nil => simp at hj
      | cons b u =>
        simp only [List.getElem?_cons_zero, Option.some.injEq] at hi
        simp only [List.getElem?_cons_succ, List.getElem?_cons_zero, Option.some.injEq] at hj
        subst hi; subst hj
        simp only [List.set_cons_zero, List.set_cons_succ]
        exact List.Perm.swap _ _ u
    | succ k =>
      simp only [List.getElem?_cons_succ] at hi hj
      simp only [List.set_cons_succ]
      exact List.Perm.cons a (ih k x y hi hj)

theorem invA_pairwise {n : Node} (h : InvA n) :
    List.Pairwise PrioGE n.children := by
  cases h with | mk hs _ => exact hs

theorem invA_child {n c : Node} (h : InvA n) (hc : c ∈ n.children) : InvA c := by
  cases h with | mk _ hrec => exact hrec c hc

theorem invA_children_eq {n m : Node} (hc : n.children = m.children)
    (h : InvA n) : InvA m := by
  cases h with | mk hs hrec => exact InvA.mk (hc ▸ hs) (hc ▸ hrec)

theorem mem_of_mem_set {α : Type} {l : List α} {i : Nat} {x y : α}
    (h : y ∈ l.set i x) : y = x ∨ y ∈ l := by
  induction l generalizing i with
  | nil => simp at h
  | cons a t ih =>
    cases i with
    | zero =>
      rcases List.mem_cons.1 h with h1 | h1
      · exact Or.inl h1
      · exact Or.inr (List.mem_cons_of_mem a h1)
    | succ j =>
      rcases List.mem_cons.1 h with h1 | h1
      · exact Or.inr (h1 ▸ List.mem_cons_self a t)
      · rcases ih h1 with h2 | h2
        · exact Or.inl h2
        · exact Or.inr (List.mem_cons_of_mem a h2)

theorem zip_getElem {α β : Type} {l : List α} {m : List β} {i : Nat}
    {x : α} {y : β} (hl : l[i]? = some x) (hm : m[i]? = some y) :
    (l.zip m)[i]? = some (x, y) := by
  induction l generalizing m i with
  | nil => simp at hl
  | cons a t ih =>
    cases m with
    | nil => simp at hm
    | cons b u =>
      cases i with
      | zero =>
        simp only [List.getElem?_cons_zero, Option.some.injEq] at hl hm
        simp [List.zip_cons_cons, hl, hm]
      | succ j =>
        simp only [List.getElem?_cons_succ] at hl hm
        simpa [List.zip_cons_cons] using ih hl hm

theorem set_append_len {α : Type} : ∀ (A l : List α) (k : Nat) (v : α),
    (A ++ l).set (A.length + k) v = A ++ l.set k v := by
  intro A
  induction A with
  | nil => intro l k v; simp
  | cons a t ih =>
    intro l k v
    simp only [List.cons_append, List.length_cons]
    have : t.length + 1 + k = (t.length + k) + 1 := by omega
    rw [this, List.set_cons_succ, ih]

theorem getElem_append_len {α : Type} (A l : List α) (k : Nat) :
    (A ++ l)[A.length + k]? = l[k]? := by
  rw [List.getElem?_append_right (by omega)]
  congr 1
  omega

/-- Full specification of the bubble-left loop, relative to a decomposition
`children = A ++ x :: B` with the bubbling (already incremented) child `x`
at position `A.length`: the loop keeps all pairs not involving `x` ordered,
returns a descending list with `x` at the returned position, and permutes
the `(indices, children)` pairs together. -/
theorem bubbleLeft_spec : ∀ (p : Nat) (x : Node) (A B : List Node)
    (indices : Bytes) (ch2 : List Node) (idx2 : Bytes) (p2 : Nat),
    A.length = p →
    List.Pairwise PrioGE (A ++ B) →
    (∀ b ∈ B, b.priority ≤ x.priority) →
    bubbleLeft x.priority (A ++ x :: B) indices p = some (ch2, idx2, p2) →
    List.Pairwise PrioGE ch2 ∧ ch2[p2]? = some x ∧
    (idx2.zip ch2).Perm (indices.zip (A ++ x :: B)) ∧
    ch2.Perm (A ++ x :: B) ∧
    ch2.length = (A ++ x :: B).length ∧ idx2.length = indices.length := by
  intro p
  induction p with
  | zero =>
    intro x A B indices ch2 idx2 p2 hA hpw hB hrun
    have hAnil : A = [] := List.eq_nil_of_length_eq_zero hA
    subst hAnil
    simp only [List.nil_append] at hpw hrun ⊢
    simp only [bubbleLeft, Option.some.injEq, Prod.mk.injEq] at hrun
    obtain ⟨h1, h2, h3⟩ := hrun
    subst h1; subst h2; subst h3
    refine ⟨?_, by simp, List.Perm.refl _, List.Perm.refl _, rfl, rfl⟩
    exact List.pairwise_cons.2 ⟨fun b hb => hB b hb, hpw⟩
  | succ sib ih =>
    intro x A B indices ch2 idx2 p2 hA hpw hB hrun
    rcases List.eq_nil_or_concat A with rfl | ⟨A1, y, rfl⟩
    · simp at hA
    simp only [List.concat_eq_append] at hA hpw hrun ⊢
    have hA1 : A1.length = sib := by
      simp [List.length_append] at hA; omega
    have hsplit : (A1 ++ [y]) ++ x :: B = A1 ++ y :: x :: B := by simp
    rw [hsplit] at hrun ⊢
    have hgety : (A1 ++ y :: x :: B)[sib]? = some y := by
      have := getElem_append_len A1 (y :: x :: B) 0
      simpa [hA1] using this
    have hgetx : (A1 ++ y :: x :: B)[sib + 1]? = some x := by
      have := getElem_append_len A1 (y :: x :: B) 1
      simpa [hA1] using this
    simp only [bubbleLeft, hgety] at hrun
    -- cross facts from the pairwise hypothesis
    have hpwA : List.Pairwise PrioGE (A1 ++ [y]) := (List.pairwise_append.1 hpw).1
    have hpwB : List.Pairwise PrioGE B := (List.pairwise_append.1 hpw).2.1
    have hcross : ∀ a ∈ A1 ++ [y], ∀ b ∈ B, PrioGE a b :=
      (List.pairwise_append.1 hpw).2.2
    have hay : ∀ a ∈ A1, PrioGE a y := fun a ha =>
      (List.pairwise_append.1 hpwA).2.2 a ha y (List.mem_singleton.2 rfl)
    by_cases hge : y.priority ≥ x.priority
    · -- stop: the current state is already sorted
      rw [if_pos hge] at hrun
      simp only [Option.some.injEq, Prod.mk.injEq] at hrun
      obtain ⟨h1, h2, h3⟩ := hrun
      subst h1; subst h2; subst h3
      refine ⟨?_, hgetx, List.Perm.refl _, List.Perm.refl _, rfl, rfl⟩
      rw [List.pairwise_append]
      refine ⟨(List.pairwise_append.1 hpwA).1, ?_, ?_⟩
      · rw [List.pairwise_cons]
        constructor
        · intro b hb
          rcases List.mem_cons.1 hb with rfl | hbB
          · exact hge
          · exact hcross y (by simp) b hbB
        · rw [List.pairwise_cons]
          exact ⟨fun b hb => hB b hb, hpwB⟩
      · intro a ha b hb
        rcases List.mem_cons.1 hb with rfl | hb2
        · exact hay a ha
        rcases List.mem_cons.1 hb2 with rfl | hb3
        · exact le_trans hge (hay a ha)
        · exact hcross a (List.mem_append_left _ ha) b hb3
    · -- swap step
      rw [if_neg hge] at hrun
      push_neg at hge
      cases hisib : indices[sib]? with
      | none => rw [hgetx, hisib] at hrun; simp at hrun
      | some isib =>
      cases hipos : indices[sib + 1]? with
      | none => rw [hgetx, hisib, hipos] at hrun; simp at hrun
      | some ipos =>
      rw [hgetx, hisib, hipos] at hrun
      dsimp only at hrun
      have hch : ((A1 ++ y :: x :: B).set sib x).set (sib + 1) y =
          A1 ++ x :: y :: B := by
        have e1 : (A1 ++ y :: x :: B).set sib x = A1 ++ x :: x :: B := by
          have := set_append_len A1 (y :: x :: B) 0 x
          simpa [hA1] using this
        have e2 : (A1 ++ x :: x :: B).set (sib + 1) y = A1 ++ x :: y :: B := by
          have := set_append_len A1 (x :: x :: B) 1 y
          simpa [hA1] using this
        rw [e1, e2]
      rw [hch] at hrun
      have hpw2 : List.Pairwise PrioGE (A1 ++ y :: B) := by
        rw [List.pairwise_append]
        refine ⟨(List.pairwise_append.1 hpwA).1, ?_, ?_⟩
        · rw [List.pairwise_cons]
          exact ⟨fun b hb => hcross y (by simp) b hb, hpwB⟩
        · intro a ha b hb
          rcases List.mem_cons.1 hb with rfl | hb2
          · exact hay a ha
          · exact hcross a (List.mem_append_left _ ha) b hb2
      have hB2 : ∀ b ∈ y :: B, b.priority ≤ x.priority := by
        intro b hb
        rcases List.mem_cons.1 hb with rfl | hb2
        · exact le_of_lt hge
        · exact hB b hb2
      have hrun2 : bubbleLeft x.priority (A1 ++ x :: (y :: B))
          ((indices.set sib ipos).set (sib + 1) isib) sib =
          some (ch2, idx2, p2) := hrun
      obtain ⟨hs, hp, hzperm, hcperm, hclen, hilen⟩ :=
        ih x A1 (y :: B) ((indices.set sib ipos).set (sib + 1) isib)
          ch2 idx2 p2 hA1 hpw2 hB2 hrun2
      -- the swapped state is a permutation of the original state
      have hswapc : (A1 ++ x :: y :: B).Perm (A1 ++ y :: x :: B) :=
        List.Perm.append_left A1 (List.Perm.swap y x B)
      have hzip : ((indices.set sib ipos).set (sib + 1) isib).zip
          (A1 ++ x :: y :: B) =
          ((indices.zip (A1 ++ y :: x :: B)).set sib (ipos, x)).set
            (sib + 1) (isib, y) := by
        rw [← hch, ← zip_set, ← zip_set]
      have hzswap : (((indices.set sib ipos).set (sib + 1) isib).zip
          (A1 ++ x :: y :: B)).Perm (indices.zip (A1 ++ y :: x :: B)) := by
        rw [hzip]
        exact perm_set_set_adj _ sib (isib, y) (ipos, x)
          (zip_getElem hisib hgety) (zip_getElem hipos hgetx)
      refine ⟨hs, hp, hzperm.trans hzswap, hcperm.trans hswapc, ?_, ?_⟩
      · rw [hclen]
        exact hswapc.length_eq
      · rw [hilen]
        simp

/-- Specification of incrementChildNodePriorityAndSwapIfNeeded on a node
with descending children: the bumped child ends at the returned position,
the children stay descending, and the `(indices, children)` pairs are
permuted together; all other fields are unchanged. -/
theorem incrementChild_spec {n : Node} {pos : Nat} {n' : Node} {pos' : Nat}
    (hpw : List.Pairwise PrioGE n.children)
    (hrun : n.incrementChildNodePriorityAndSwapIfNeeded pos = some (n', pos')) :
    ∃ c, n.children[pos]? = some c ∧
      List.Pairwise PrioGE n'.children ∧
      n'.children[pos']? = some { c with priority := c.priority + 1 } ∧
      (n'.indices.zip n'.children).Perm
        (n.indices.zip (n.children.set pos { c with priority := c.priority + 1 })) ∧
      n'.children.Perm (n.children.set pos { c with priority := c.priority + 1 }) ∧
      n'.children.length = n.children.length ∧
      n'.indices.length = n.indices.length ∧
      n'.path = n.path ∧ n'.nodeType = n.nodeType ∧ n'.priority = n.priority ∧
      n'.handler = n.handler ∧ n'.routePath = n.routePath ∧
      n'.wildChild = n.wildChild ∧ n'.maxParameters = n.maxParameters := by
  unfold Node.incrementChildNodePriorityAndSwapIfNeeded at hrun
  by_cases hlt : pos ≥ n.children.length
  · rw [if_pos hlt] at hrun; exact absurd hrun (by simp)
  rw [if_neg hlt] at hrun
  push_neg at hlt
  cases hc : n.children[pos]? with
  | none => rw [hc] at hrun; simp at hrun
  | some c =>
  rw [hc] at hrun
  dsimp only at hrun
  cases hbb : bubbleLeft (c.priority + 1)
      (n.children.set pos { c with priority := c.priority + 1 })
      n.indices pos with
  | none => rw [hbb] at hrun; simp at hrun
  | some res =>
  obtain ⟨ch2, idx2, p2⟩ := res
  rw [hbb] at hrun
  simp only [Option.some.injEq, Prod.mk.injEq] at hrun
  obtain ⟨h1, h2⟩ := hrun
  -- decompose the incremented children list around position pos
  have hdec : n.children.set pos { c with priority := c.priority + 1 } =
      n.children.take pos ++ { c with priority := c.priority + 1 } ::
        n.children.drop (pos + 1) := by
    rw [List.set_eq_take_append_cons_drop, if_pos hlt]
  have horig : n.children = n.children.take pos ++ c :: n.children.drop (pos + 1) := by
    conv_lhs => rw [← List.take_append_drop pos n.children]
    congr 1
    rw [List.drop_eq_getElem_cons hlt]
    congr 1
    have := hc
    rw [List.getElem?_eq_getElem hlt] at this
    exact (Option.some.injEq _ _ ▸ this)
  have hAlen : (n.children.take pos).length = pos := by
    rw [List.length_take]
    omega
  have hpw2 : List.Pairwise PrioGE
      (n.children.take pos ++ n.children.drop (pos + 1)) := by
    have hsub : (n.children.take pos ++ n.children.drop (pos + 1)).Sublist
        n.children := by
      conv_rhs => rw [horig]
      exact List.Sublist.append_left (List.sublist_cons_self _ _) _
    exact hpw.sublist hsub
  have hBle : ∀ b ∈ n.children.drop (pos + 1),
      b.priority ≤ ({ c with priority := c.priority + 1 } : Node).priority := by
    intro b hb
    have hpw3 : List.Pairwise PrioGE (c :: n.children.drop (pos + 1)) := by
      have hsub : (c :: n.children.drop (pos + 1)).Sublist n.children := by
        conv_rhs => rw [horig]
        exact (List.sublist_append_right _ _)
      exact hpw.sublist hsub
    have := (List.pairwise_cons.1 hpw3).1 b hb
    simp only [PrioGE] at this
    simp only []
    omega
  have hbb2 := hbb
  rw [hdec] at hbb2
  have hprio : ({ c with priority := c.priority + 1 } : Node).priority =
      c.priority + 1 := rfl
  rw [← hprio] at hbb2
  obtain ⟨hs, hp, hzperm, hcperm, hclen, hilen⟩ :=
    bubbleLeft_spec pos { c with priority := c.priority + 1 }
      (n.children.take pos) (n.children.drop (pos + 1)) n.indices
      ch2 idx2 p2 hAlen hpw2 hBle hbb2
  rw [← hdec] at hzperm hcperm hclen
  subst h1
  subst h2
  refine ⟨c, ?_, hs, hp, hzperm, hcperm, ?_, hilen, rfl, rfl, rfl, rfl, rfl, rfl, rfl⟩
  · rfl
  · rw [hclen]
    simp

theorem invA_leaf {n : Node} (h : n.children = []) : InvA n :=
  InvA.mk (h ▸ List.Pairwise.nil) (by rw [h]; simp)

theorem invA_singleton {n c : Node} (h : n.children = [c]) (hc : InvA c) :
    InvA n := by
  refine InvA.mk ?_ ?_
  · rw [h]
    exact List.pairwise_singleton _ _
  · rw [h]
    intro x hx
    rw [List.mem_singleton.1 hx]
    exact hc

/-- The insertChild scan produces subtrees whose children are everywhere
descending, and never changes the priority of the node it writes. -/
theorem insertChildScan_invA (routePath : Bytes) (handler : Option Nat)
    (path : Bytes) :
    ∀ (rest : Bytes) (pc : Nat) (n : Node) (offset i : Nat) (n' : Node),
    InvA n →
    Node.insertChildScan routePath path handler pc n offset i rest =
      Except.ok n' →
    InvA n' ∧ n'.priority = n.priority := by
  intro rest
  induction rest with
  | nil =>
    intro pc n offset i n' ha hrun
    cases pc with
    | zero =>
      simp only [Node.insertChildScan, Except.ok.injEq] at hrun
      subst hrun
      refine ⟨@invA_children_eq n _ ?_ ha, rfl⟩
      rfl
    | succ p => simp [Node.insertChildScan] at hrun
  | cons c rest ih =>
    intro pc n offset i n' ha hrun
    cases pc with
    | zero =>
      simp only [Node.insertChildScan, Except.ok.injEq] at hrun
      subst hrun
      refine ⟨@invA_children_eq n _ ?_ ha, rfl⟩
      rfl
    | succ pcp =>
      simp only [Node.insertChildScan] at hrun
      by_cases hcs : c ≠ 58 ∧ c ≠ 42
      · rw [if_pos hcs] at hrun
        exact ih _ _ _ _ _ ha hrun
      rw [if_neg hcs] at hrun
      by_cases hch : n.children.length > 0
      · rw [if_pos hch] at hrun; cases hrun
      rw [if_neg hch] at hrun
      cases hwe : wildEnd rest with
      | none => rw [hwe] at hrun; cases hrun
      | some k =>
      rw [hwe] at hrun
      dsimp only at hrun
      by_cases he2 : i + 1 + k - i < 2
      · rw [if_pos he2] at hrun; cases hrun
      rw [if_neg he2] at hrun
      by_cases hc58 : c = 58
      · rw [if_pos hc58] at hrun
        by_cases helt : i + 1 + k < path.length
        · rw [if_pos helt] at hrun
          split at hrun
          · cases hrun
          · rename_i sub hsub
            injection hrun with hrun
            subst hrun
            obtain ⟨hsubA, _⟩ := ih _ _ _ _ _ (invA_leaf rfl) hsub
            refine ⟨invA_singleton rfl (invA_singleton rfl hsubA), ?_⟩
            split <;> rfl
        · rw [if_neg helt] at hrun
          split at hrun
          · cases hrun
          · rename_i sub hsub
            injection hrun with hrun
            subst hrun
            obtain ⟨hsubA, _⟩ := ih _ _ _ _ _ (invA_leaf rfl) hsub
            refine ⟨invA_singleton rfl hsubA, ?_⟩
            split <;> rfl
      · rw [if_neg hc58] at hrun
        by_cases hend : i + 1 + k ≠ path.length ∨ pcp + 1 > 1
        · rw [if_pos hend] at hrun; cases hrun
        rw [if_neg hend] at hrun
        by_cases hroot : n.path.length > 0 ∧ n.path.getLast? = some 47
        · rw [if_pos hroot] at hrun; cases hrun
        rw [if_neg hroot] at hrun
        cases i with
        | zero => cases hrun
        | succ iM1 =>
          dsimp only at hrun
          by_cases hslash : path.getD iM1 0 ≠ 47
          · rw [if_pos hslash] at hrun; cases hrun
          rw [if_neg hslash] at hrun
          injection hrun with hrun
          subst hrun
          exact ⟨invA_singleton rfl (invA_singleton rfl (invA_leaf rfl)), rfl⟩

theorem getElem0_cons {α : Type} {l : List α} {x : α} (h : l[0]? = some x) :
    ∃ t, l = x :: t := by
  cases l with
  | nil => simp at h
  | cons a t =>
    simp only [List.getElem?_cons_zero, Option.some.injEq] at h
    exact ⟨t, by rw [h]⟩

theorem pairwise_set_eq_prio : ∀ {l : List Node} {i : Nat} {c x : Node},
    List.Pairwise PrioGE l → l[i]? = some c → x.priority = c.priority →
    List.Pairwise PrioGE (l.set i x) := by
  intro l
  induction l with
  | nil => intro i c x _ hc _; simp at hc
  | cons a t iht =>
    intro i c x hpw hc hx
    cases i with
    | zero =>
      simp only [List.getElem?_cons_zero, Option.some.injEq] at hc
      subst hc
      rw [List.set_cons_zero]
      rw [List.pairwise_cons] at hpw ⊢
      refine ⟨fun b hb => ?_, hpw.2⟩
      have := hpw.1 b hb
      simp only [PrioGE] at this ⊢
      omega
    | succ j =>
      simp only [List.getElem?_cons_succ] at hc
      rw [List.set_cons_succ]
      rw [List.pairwise_cons] at hpw ⊢
      refine ⟨fun b hb => ?_, iht hpw.2 hc hx⟩
      rcases mem_of_mem_set hb with rfl | hb2
      · have hcmem : c ∈ t := List.getElem?_mem hc
        have := hpw.1 c hcmem
        simp only [PrioGE] at this ⊢
        omega
      · exact hpw.1 b hb2

theorem invA_set0_bump {NN cw2 c : Node} {t : List Node}
    (hct : NN.children = c :: t) (haNN : InvA NN) (h1 : InvA cw2)
    (h2 : cw2.priority = c.priority + 1) {m : Node}
    (hm : m.children = NN.children.set 0 cw2) : InvA m := by
  refine InvA.mk ?_ ?_
  · rw [hm, hct, List.set_cons_zero]
    have hpw := invA_pairwise haNN
    rw [hct, List.pairwise_cons] at hpw
    rw [List.pairwise_cons]
    refine ⟨fun b hb => ?_, hpw.2⟩
    have := hpw.1 b hb
    simp only [PrioGE] at this ⊢
    omega
  · rw [hm, hct, List.set_cons_zero]
    intro x hx
    rcases List.mem_cons.1 hx with rfl | hx2
    · exact h1
    · exact invA_child haNN
        (show x ∈ NN.children by rw [hct]; exact List.mem_cons_of_mem c hx2)

theorem addRouteWalk_invA : ∀ (fuel : Nat) (n : Node) (path : Bytes) (pc : Nat)
    (handler : Option Nat) (routePath : Bytes) (n' : Node),
    InvA n →
    Node.addRouteWalk handler routePath fuel n path pc =
      some (Except.ok n') →
    InvA n' ∧ n'.priority = n.priority := by
  intro fuel
  induction fuel with
  | zero =>
    intro n path pc handler routePath n' ha hrun
    simp [Node.addRouteWalk] at hrun
  | succ f ih =>
    intro n path pc handler routePath n' ha hrun
    rw [Node.addRouteWalk] at hrun
    set N1 : Node := if pc > n.maxParameters then
      { n with maxParameters := pc } else n with hN1
    set POS : Nat := commonPrefixLength path N1.path with hPOS
    set NN : Node := if POS < N1.path.length then
      { N1 with
        children := [{ emptyNode with
          path := N1.path.drop POS
          wildChild := N1.wildChild
          indices := N1.indices
          children := N1.children
          handler := N1.handler
          priority := N1.priority - 1
          maxParameters := maxChildParams N1.children }]
        indices := [N1.path.getD POS 0]
        path := path.take POS
        handler := none
        wildChild := false } else N1 with hNN
    have hN1c : N1.children = n.children := by rw [hN1]; split <;> rfl
    have hN1p : N1.priority = n.priority := by rw [hN1]; split <;> rfl
    have haN1 : InvA N1 := invA_children_eq hN1c.symm ha
    have hNNp : NN.priority = n.priority := by
      rw [hNN]; split <;> exact hN1p
    have haNN : InvA NN := by
      rw [hNN]; split
      · refine invA_singleton rfl (@invA_children_eq N1 _ ?_ haN1)
        rfl
      · exact haN1
    clear hN1 hPOS hNN haN1 hN1c hN1p ha
    by_cases hlt : POS < path.length
    · rw [if_pos hlt] at hrun
      by_cases hwc : NN.wildChild
      · rw [if_pos hwc] at hrun
        cases hgi : getIdx NN.children 0 with
        | none => rw [hgi] at hrun; simp at hrun
        | some c =>
          rw [hgi] at hrun
          dsimp only at hrun
          obtain ⟨t, hct⟩ := getElem0_cons (getIdx_some hgi)
          repeat' split at hrun
          all_goals try (first
            | exact Option.noConfusion hrun
            | exact Except.noConfusion (Option.some.inj hrun))
          all_goals
            rename_i cw2 heq
          all_goals
            simp only [Option.some.injEq, Except.ok.injEq] at hrun
          all_goals
            subst hrun
          all_goals
            obtain ⟨h1, h2⟩ := ih _ _ _ _ _ _
              (by refine @invA_children_eq c.1 _ ?_ (invA_child haNN c.2); rfl)
              heq
          all_goals
            exact ⟨invA_set0_bump hct haNN h1 h2 rfl, hNNp⟩
      · rw [if_neg hwc] at hrun
        cases hp2 : path.drop POS with
        | nil => rw [hp2] at hrun; simp at hrun
        | cons ca ptail =>
        rw [hp2] at hrun
        dsimp only at hrun
        by_cases hpsl : NN.nodeType = NodeType.param ∧ ca = 47 ∧
            NN.children.length = 1
        · rw [if_pos hpsl] at hrun
          cases hgi : getIdx NN.children 0 with
          | none => rw [hgi] at hrun; simp at hrun
          | some c =>
            rw [hgi] at hrun
            dsimp only at hrun
            obtain ⟨t, hct⟩ := getElem0_cons (getIdx_some hgi)
            split at hrun
            · exact Option.noConfusion hrun
            · exact Except.noConfusion (Option.some.inj hrun)
            · rename_i cw2 heq
              simp only [Option.some.injEq, Except.ok.injEq] at hrun
              subst hrun
              obtain ⟨h1, h2⟩ := ih _ _ _ _ _ _
                (by refine @invA_children_eq c.1 _ ?_ (invA_child haNN c.2); rfl)
                heq
              exact ⟨invA_set0_bump hct haNN h1 h2 rfl, hNNp⟩
        · rw [if_neg hpsl] at hrun
          cases hfip : findIndexPos NN.indices ca with
          | some idx =>
            rw [hfip] at hrun
            dsimp only at hrun
            cases hinc : NN.incrementChildNodePriorityAndSwapIfNeeded idx with
            | none => rw [hinc] at hrun; simp at hrun
            | some pr =>
            obtain ⟨n2, idx2⟩ := pr
            rw [hinc] at hrun
            dsimp only at hrun
            obtain ⟨c, hc, hpw2, hp2, hzperm, hcperm, hclen, hilen, hpath2,
              htype2, hprio2, hrest⟩ := incrementChild_spec (invA_pairwise haNN) hinc
            have haN2 : InvA n2 := by
              refine InvA.mk hpw2 (fun y hy => ?_)
              have hy2 : y ∈ NN.children.set idx
                  { c with priority := c.priority + 1 } := hcperm.mem_iff.1 hy
              rcases mem_of_mem_set hy2 with rfl | hy3
              · refine @invA_children_eq c _ ?_
                  (invA_child haNN (List.getElem?_mem hc))
                rfl
              · exact invA_child haNN hy3
            cases hgi2 : getIdx n2.children idx2 with
            | none => rw [hgi2] at hrun; simp at hrun
            | some csub =>
            rw [hgi2] at hrun
            dsimp only at hrun
            split at hrun
            · exact Option.noConfusion hrun
            · exact Except.noConfusion (Option.some.inj hrun)
            · rename_i child2 heq
              simp only [Option.some.injEq, Except.ok.injEq] at hrun
              subst hrun
              obtain ⟨h1, h2⟩ := ih _ _ _ _ _ _ (invA_child haN2 csub.2) heq
              refine ⟨InvA.mk ?_ ?_, hprio2.trans hNNp⟩
              · exact pairwise_set_eq_prio hpw2 (getIdx_some hgi2) h2
              · intro y hy
                rcases mem_of_mem_set hy with rfl | hy2
                · exact h1
                · exact invA_child haN2 hy2
          | none =>
            rw [hfip] at hrun
            by_cases hnw : ca ≠ 58 ∧ ca ≠ 42
            · rw [if_pos hnw] at hrun
              dsimp only at hrun
              have hPW : List.Pairwise PrioGE (NN.children ++
                  [{ emptyNode with
                      routePath := routePath
                      maxParameters := pc }]) := by
                rw [List.pairwise_append]
                refine ⟨invA_pairwise haNN, List.pairwise_singleton _ _, ?_⟩
                intro a _ b hb
                rw [List.mem_singleton.1 hb]
                exact Nat.zero_le _
              split at hrun
              · exact Except.noConfusion (Option.some.inj hrun)
              · rename_i n3 newPos hinc
                obtain ⟨c0, hc0, hpw3, hp3, hzperm, hcperm, hclen, hilen,
                  hpath3, htype3, hprio3, hrest3⟩ :=
                  incrementChild_spec hPW hinc
                have hc0mem : c0 ∈ NN.children ++
                    [{ emptyNode with
                        routePath := routePath
                        maxParameters := pc }] := List.getElem?_mem hc0
                have hInvMem : ∀ y, y ∈ NN.children ++
                    [{ emptyNode with
                        routePath := routePath
                        maxParameters := pc }] → InvA y := by
                  intro y hy
                  rcases List.mem_append.1 hy with hy1 | hy1
                  · exact invA_child haNN hy1
                  · rw [List.mem_singleton.1 hy1]
                    exact invA_leaf rfl
                have haN3 : InvA n3 := by
                  refine InvA.mk hpw3 (fun y hy => ?_)
                  have hy2 := hcperm.mem_iff.1 hy
                  rcases mem_of_mem_set hy2 with rfl | hy3
                  · refine @invA_children_eq c0 _ ?_ (hInvMem c0 hc0mem)
                    rfl
                  · exact hInvMem y hy3
                split at hrun
                · exact Except.noConfusion (Option.some.inj hrun)
                · rename_i cw hgi3
                  split at hrun
                  · exact Except.noConfusion (Option.some.inj hrun)
                  · rename_i sub hic
                    simp only [Node.insertChild] at hic
                    obtain ⟨hsubA, hsubp⟩ :=
                      insertChildScan_invA _ _ _ _ _ _ _ _ _
                        (invA_child haN3 cw.2) hic
                    simp only [Option.some.injEq, Except.ok.injEq] at hrun
                    subst hrun
                    refine ⟨InvA.mk ?_ ?_, ?_⟩
                    · exact pairwise_set_eq_prio hpw3 (getIdx_some hgi3) hsubp
                    · intro y hy
                      rcases mem_of_mem_set hy with rfl | hy2
                      · exact hsubA
                      · exact invA_child haN3 hy2
                    · exact (show n3.priority = NN.priority from hprio3).trans
                        hNNp
            · rw [if_neg hnw] at hrun
              dsimp only at hrun
              cases hic : NN.insertChild pc routePath (ca :: ptail) handler with
              | error e => rw [hic] at hrun; simp at hrun
              | ok n2 =>
                rw [hic] at hrun
                simp only [Option.some.injEq, Except.ok.injEq] at hrun
                subst hrun
                obtain ⟨h1, h2⟩ := insertChildScan_invA _ _ _ _ _ _ _ _ _
                  haNN hic
                exact ⟨h1, h2.trans hNNp⟩
    · rw [if_neg hlt] at hrun
      by_cases heq : POS = path.length
      · rw [if_pos heq] at hrun
        cases hh : NN.handler with
        | some v => rw [hh] at hrun; simp at hrun
        | none =>
          rw [hh] at hrun
          simp only [Option.some.injEq, Except.ok.injEq] at hrun
          subst hrun
          refine ⟨@invA_children_eq NN _ ?_ haNN, hNNp⟩
          rfl
      · rw [if_neg heq] at hrun
        simp only [Option.some.injEq, Except.ok.injEq] at hrun
        subst hrun
        exact ⟨haNN, hNNp⟩

theorem addRoute_invA {t : Node} {path : Bytes} {h : Option Nat} {fuel : Nat}
    {t' : Node} (ha : InvA t)
    (hrun : t.AddRoute path h fuel = some (Except.ok t')) : InvA t' := by
  rw [Node.AddRoute] at hrun
  dsimp only at hrun
  split at hrun
  · exact (addRouteWalk_invA fuel _ path (countRequestPathParams path) h path t'
      (by refine @invA_children_eq t _ ?_ ha; rfl) hrun).1
  · split at hrun
    · exact Except.noConfusion (Option.some.inj hrun)
    · rename_i n2 hscan
      simp only [Option.some.injEq, Except.ok.injEq] at hrun
      subst hrun
      simp only [Node.insertChild] at hscan
      exact (insertChildScan_invA _ _ _ _ _ _ _ _ _
        (by refine @invA_children_eq t _ ?_ ha; rfl) hscan).1

theorem reachable_invA {t : Node} (hr : Reachable t) : InvA t := by
  induction hr with
  | empty => exact invA_leaf rfl
  | step path h fuel _ hrun ih => exact addRoute_invA ih hrun

theorem invA_memTree {t m : Node} (ha : InvA t) (hm : MemTree m t) : InvA m := by
  induction hm with
  | refl => exact ha
  | child hc _ ih => exact ih (invA_child ha hc)

/-- C8: in every tree reachable by valid AddRoute calls, every node's
children slice is sorted by priority in descending order; and the
bubble-left step of incrementChildNodePriorityAndSwapIfNeeded preserves
descending order and swaps each `children` entry together with its parallel
`indices` byte (the `(indices, children)` pairs of the result are a
permutation of the pairs after the increment). -/
theorem c8_children_sorted_and_bubble :
    (∀ t, Reachable t → ∀ m, MemTree m t →
      List.Pairwise PrioGE m.children) ∧
    (∀ (n : Node) (pos : Nat) (n' : Node) (pos' : Nat),
      List.Pairwise PrioGE n.children →
      n.incrementChildNodePriorityAndSwapIfNeeded pos = some (n', pos') →
      List.Pairwise PrioGE n'.children ∧
      ∃ c, n.children[pos]? = some c ∧
        n'.children[pos']? = some { c with priority := c.priority + 1 } ∧
        (n'.indices.zip n'.children).Perm
          (n.indices.zip
            (n.children.set pos { c with priority := c.priority + 1 }))) := by
  constructor
  · intro t hr m hm
    exact invA_pairwise (invA_memTree (reachable_invA hr) hm)
  · intro n pos n' pos' hpw hrun
    obtain ⟨c, hc, h1, h2, h3, _⟩ := incrementChild_spec hpw hrun
    exact ⟨h1, c, hc, h2, h3⟩

theorem c8_children_sorted_and_bubble_witness :
    List.Pairwise PrioGE c8wTree2.children ∧
    (List.Pairwise PrioGE c8wTree2sw.children ∧
      ∃ c, c8wTree2.children[1]? = some c ∧
        c8wTree2sw.children[0]? = some { c with priority := c.priority + 1 } ∧
        (c8wTree2sw.indices.zip c8wTree2sw.children).Perm
          (c8wTree2.indices.zip (c8wTree2.children.set 1
            { c with priority := c.priority + 1 }))) :=
  ⟨c8_children_sorted_and_bubble.1 c8wTree2
      (Reachable.step (bsv "/y") (some 2) 8
        (Reachable.step (bsv "/x") (some 1) 8 Reachable.empty (by rfl))
        (by rfl))
      c8wTree2 (MemTree.refl c8wTree2),
   c8_children_sorted_and_bubble.2 c8wTree2 1 c8wTree2sw 0 (by decide) (by rfl)⟩


/-- C3: the duplicate-route detection has a hole: AddRoute checks
`len(path) > 0 || len(children) > 0` to decide between walking the tree
(where the handler-already-exists error is raised) and calling insertChild
directly (which never checks for an existing handler).  After registering
the empty pattern with a non-nil handler, the tree still looks empty to
this test, so registering the same (empty) pattern again silently
overwrites the first handler instead of failing with the duplicate-route
error. -/
theorem c3_duplicate_insert_not_detected :
    addOkTree emptyNode [] (some 1) 64 =
      some { emptyNode with priority := 1, handler := some 1 } ∧
    ({ emptyNode with priority := 1, handler := some 1 } : Node).AddRoute
        [] (some 2) 64 =
      some (Except.ok { emptyNode with priority := 2, handler := some 2 }) := by
  exact ⟨rfl, rfl⟩

/-- C7 (amended): after registering the single pattern /ABC/, the
case-insensitive lookup of the lowercased pattern returns (/ABC/, true)
for both values of the fix-trailing-slash flag, and the lookup of /abc
(without the trailing slash) with fixing enabled also returns
(/ABC/, true); the universal form over all ASCII patterns fails when the
lowercasings of two registered sibling patterns collide (see the
counterexample). -/
theorem c7_amended_case_insensitive : ∀ fix : Bool,
    (mkTree [(bsv "/ABC/", some 1)]).bind
        (fun t => (t.findCaseInsensitivePath (lowerBytes (bsv "/ABC/")) fix
          64).map Prod.fst) = some (bsv "/ABC/", true) ∧
    (mkTree [(bsv "/ABC/", some 1)]).bind
        (fun t => (t.findCaseInsensitivePath (bsv "/abc") true 64).map
          Prod.fst) = some (bsv "/ABC/", true) := by
  intro fix
  cases fix <;> exact ⟨rfl, rfl⟩

theorem commonPrefixLength_of_prefix : ∀ (a b : Bytes),
    b.length ≤ a.length → b = a.take b.length →
    commonPrefixLength a b = b.length := by
  intro a
  induction a with
  | nil =>
    intro b hlen hpre
    have hb : b = [] := List.eq_nil_of_length_eq_zero (by simpa using hlen)
    subst hb
    rfl
  | cons x as ih =>
    intro b hlen hpre
    cases b with
    | nil => simp [commonPrefixLength]
    | cons y bs =>
      simp only [List.length_cons, List.take_succ_cons, List.cons.injEq] at hpre ⊢
      rw [commonPrefixLength, if_pos hpre.1.symm]
      simp only [List.length_cons] at hlen
      rw [ih bs (by omega) hpre.2]

theorem commonPrefixLength_le_left : ∀ (a b : Bytes),
    commonPrefixLength a b ≤ a.length := by
  intro a
  induction a with
  | nil => intro b; cases b <;> simp [commonPrefixLength]
  | cons x as ih =>
    intro b
    cases b with
    | nil => simp [commonPrefixLength]
    | cons y bs =>
      rw [commonPrefixLength]
      split
      · simpa using ih bs
      · simp

theorem wildEnd_full_clean : ∀ (b : Bytes) (k : Nat),
    wildEnd b = some k → k = b.length → ∀ x ∈ b, x ≠ 58 ∧ x ≠ 42 := by
  intro b
  induction b with
  | nil => intro k _ _ x hx; exact absurd hx (List.not_mem_nil x)
  | cons c rest ih =>
    intro k hwe hk x hx
    rw [wildEnd] at hwe
    by_cases h47 : c = 47
    · rw [if_pos h47] at hwe
      simp only [Option.some.injEq] at hwe
      subst hwe
      simp at hk
    · rw [if_neg h47] at hwe
      by_cases hw : c = 58 ∨ c = 42
      · rw [if_pos hw] at hwe; cases hwe
      · rw [if_neg hw] at hwe
        push_neg at hw
        cases hre : wildEnd rest with
        | none => rw [hre] at hwe; cases hwe
        | some k2 =>
          rw [hre] at hwe
          simp at hwe
          simp only [List.length_cons] at hk
          rcases List.mem_cons.1 hx with rfl | hx2
          · exact hw
          · exact ih k2 hre (by omega) x hx2

theorem zip_append_single {α β : Type} : ∀ (l₁ : List α) (l₂ : List β)
    (a : α) (b : β), l₁.length = l₂.length →
    (l₁ ++ [a]).zip (l₂ ++ [b]) = l₁.zip l₂ ++ [(a, b)] := by
  intro l₁
  induction l₁ with
  | nil =>
    intro l₂ a b hlen
    have h0 : l₂ = [] := List.eq_nil_of_length_eq_zero (by simpa using hlen.symm)
    subst h0
    rfl
  | cons x xs ih =>
    intro l₂ a b hlen
    cases l₂ with
    | nil => simp at hlen
    | cons y ys =>
      simp only [List.length_cons] at hlen
      simp only [List.cons_append, List.zip_cons_cons]
      rw [ih ys a b (by omega)]

theorem set_self_of_getElem {α : Type} : ∀ (l : List α) (i : Nat) (x : α),
    l[i]? = some x → l.set i x = l := by
  intro l
  induction l with
  | nil => intro i x h; simp at h
  | cons a t ih =>
    intro i x h
    cases i with
    | zero =>
      simp only [List.getElem?_cons_zero, Option.some.injEq] at h
      rw [List.set_cons_zero, h]
    | succ j =>
      simp only [List.getElem?_cons_succ] at h
      rw [List.set_cons_succ, ih j x h]

theorem zip_set_right_of_lt {α β : Type} {l : List α} {m : List β} {k : Nat}
    {b : α} (x : β) (h : l[k]? = some b) :
    l.zip (m.set k x) = (l.zip m).set k (b, x) := by
  conv_lhs => rw [← set_self_of_getElem l k b h]
  exact zip_set l m k b x

theorem zip_set_right_of_ge {α β : Type} : ∀ (l : List α) (m : List β)
    (k : Nat) (x : β), l.length ≤ k → l.zip (m.set k x) = l.zip m := by
  intro l
  induction l with
  | nil => intro m k x _; simp
  | cons a t ih =>
    intro m k x hk
    cases m with
    | nil => simp
    | cons b u =>
      cases k with
      | zero => simp at hk
      | succ j =>
        simp only [List.length_cons] at hk
        simp only [List.set_cons_succ, List.zip_cons_cons]
        rw [ih u j x (by omega)]

theorem findIndexPos_getElem : ∀ (idxs : Bytes) (c : Nat) (i : Nat),
    findIndexPos idxs c = some i → idxs[i]? = some c := by
  intro idxs
  induction idxs with
  | nil => intro c i h; simp [findIndexPos] at h
  | cons b rest ih =>
    intro c i h
    rw [findIndexPos] at h
    by_cases hb : b = c
    · rw [if_pos hb] at h
      simp only [Option.some.injEq] at h
      subst h
      simp [hb]
    · rw [if_neg hb] at h
      cases hre : findIndexPos rest c with
      | none => rw [hre] at h; cases h
      | some j =>
        rw [hre] at h
        simp at h
        subst h
        simpa using ih c j hre

theorem wildEnd_le : ∀ (b : Bytes) (k : Nat), wildEnd b = some k →
    k ≤ b.length := by
  intro b
  induction b with
  | nil => intro k h; simp [wildEnd] at h; omega
  | cons c rest ih =>
    intro k h
    rw [wildEnd] at h
    by_cases h47 : c = 47
    · rw [if_pos h47] at h
      simp only [Option.some.injEq] at h
      omega
    · rw [if_neg h47] at h
      by_cases hw : c = 58 ∨ c = 42
      · rw [if_pos hw] at h; cases h
      · rw [if_neg hw] at h
        cases hre : wildEnd rest with
        | none => rw [hre] at h; cases h
        | some k2 =>
          rw [hre] at h
          simp at h
          have := ih k2 hre
          simp only [List.length_cons]
          omega

/-- The per-node shape invariant behind the corrected C4 statement:
wildcard parents have exactly one child and no index bytes; other nodes
keep `indices` and `children` in step, apart from a parameter node holding
only its slash child; indexed children are never parameter nodes, and an
indexed catch-all child is the empty-path helper (`wildChild` set); and a
parameter node's children are never themselves wildcard nodes. -/
def NodeOKl (n : Node) : Prop :=
  (n.wildChild = true → n.indices = [] ∧ ∃ c, n.children = [c]) ∧
  (n.wildChild = false →
    n.indices.length = n.children.length ∨
    (n.nodeType = NodeType.param ∧ n.indices = [] ∧
      n.children.length = 1)) ∧
  (∀ p ∈ n.indices.zip n.children,
    p.2.nodeType ≠ NodeType.param ∧
    (p.2.nodeType = NodeType.catchAll →
      p.2.path = [] ∧ p.2.wildChild = true)) ∧
  (n.nodeType = NodeType.param → ∀ c ∈ n.children,
    c.nodeType ≠ NodeType.param ∧ c.nodeType ≠ NodeType.catchAll)

/-- NodeOKl holding recursively everywhere in a tree. -/
inductive InvL : Node → Prop where
  | mk {n : Node} : NodeOKl n → (∀ c ∈ n.children, InvL c) → InvL n

theorem invL_nodeok {n : Node} (h : InvL n) : NodeOKl n := by
  cases h with | mk hk _ => exact hk

theorem invL_child {n c : Node} (h : InvL n) (hc : c ∈ n.children) : InvL c := by
  cases h with | mk _ hrec => exact hrec c hc

theorem invL_eq {n m : Node} (hc : n.children = m.children)
    (hi : n.indices = m.indices) (hw : n.wildChild = m.wildChild)
    (ht : n.nodeType = m.nodeType) (h : InvL n) : InvL m := by
  cases h with
  | mk hk hrec =>
    refine InvL.mk ?_ (hc ▸ hrec)
    obtain ⟨h1, h2, h3, h4⟩ := hk
    exact ⟨by rw [← hc, ← hi, ← hw]; exact h1,
      by rw [← hc, ← hi, ← hw, ← ht]; exact h2,
      by rw [← hc, ← hi]; exact h3,
      by rw [← hc, ← ht]; exact h4⟩

theorem invL_leaf {n : Node} (hch : n.children = [])
    (hw : n.wildChild = false) (hi : n.indices = []) : InvL n := by
  refine InvL.mk ⟨?_, ?_, ?_, ?_⟩ ?_
  · intro h; rw [h] at hw; cases hw
  · intro _
    left
    rw [hch, hi]
    rfl
  · intro p hp; rw [hi] at hp; simp at hp
  · intro _ c hc; rw [hch] at hc; exact absurd hc (List.not_mem_nil c)
  · intro c hc; rw [hch] at hc; exact absurd hc (List.not_mem_nil c)

/-- The walk precondition at parameter / catch-all nodes: the remaining
pattern starts with the node's own path, and (for parameter nodes) the
byte right after it, if any, is '/'. -/
def WildPreL (n : Node) (path : Bytes) : Prop :=
  (n.nodeType = NodeType.param ∨ n.nodeType = NodeType.catchAll) →
    n.path.length ≤ path.length ∧ n.path = path.take n.path.length ∧
    (n.nodeType = NodeType.param → n.path.length < path.length →
      path.getD n.path.length 0 = 47)

/-- Sortedness-free facts about the bubble-left loop: the moving child ends
at the returned position, the `(indices, children)` pairs are permuted
together, each list is a permutation of its input, and lengths are kept. -/
theorem bubbleLeft_basic : ∀ (p : Nat) (pr : Nat) (children : List Node)
    (indices : Bytes) (x : Node) (ch2 : List Node) (idx2 : Bytes) (p2 : Nat),
    children[p]? = some x →
    bubbleLeft pr children indices p = some (ch2, idx2, p2) →
    ch2[p2]? = some x ∧
    (idx2.zip ch2).Perm (indices.zip children) ∧
    ch2.Perm children ∧ idx2.Perm indices ∧
    ch2.length = children.length ∧ idx2.length = indices.length := by
  intro p
  induction p with
  | zero =>
    intro pr children indices x ch2 idx2 p2 hx hrun
    simp only [bubbleLeft, Option.some.injEq, Prod.mk.injEq] at hrun
    obtain ⟨h1, h2, h3⟩ := hrun
    subst h1; subst h2; subst h3
    exact ⟨hx, List.Perm.refl _, List.Perm.refl _, List.Perm.refl _, rfl, rfl⟩
  | succ sib ih =>
    intro pr children indices x ch2 idx2 p2 hx hrun
    rw [bubbleLeft] at hrun
    cases hcs : children[sib]? with
    | none => rw [hcs] at hrun; cases hrun
    | some csib =>
    rw [hcs] at hrun
    dsimp only at hrun
    by_cases hge : csib.priority ≥ pr
    · rw [if_pos hge] at hrun
      simp only [Option.some.injEq, Prod.mk.injEq] at hrun
      obtain ⟨h1, h2, h3⟩ := hrun
      subst h1; subst h2; subst h3
      exact ⟨hx, List.Perm.refl _, List.Perm.refl _, List.Perm.refl _, rfl, rfl⟩
    · rw [if_neg hge] at hrun
      rw [hx] at hrun
      cases hisib : indices[sib]? with
      | none => rw [hisib] at hrun; cases hrun
      | some isib =>
      cases hipos : indices[sib + 1]? with
      | none => rw [hisib, hipos] at hrun; cases hrun
      | some ipos =>
      rw [hisib, hipos] at hrun
      dsimp only at hrun
      have hlen : sib < children.length := by
        by_contra hc
        rw [List.getElem?_eq_none (by omega)] at hcs
        cases hcs
      have hx2 : ((children.set sib x).set (sib + 1) csib)[sib]? = some x := by
        rw [List.getElem?_set_ne (by omega), List.getElem?_set_self hlen]
      obtain ⟨r1, r2, r3, r4, r5, r6⟩ := ih pr _ _ x ch2 idx2 p2 hx2 hrun
      have hcperm : ((children.set sib x).set (sib + 1) csib).Perm children :=
        perm_set_set_adj children sib csib x hcs hx
      have hiperm : ((indices.set sib ipos).set (sib + 1) isib).Perm indices :=
        perm_set_set_adj indices sib isib ipos hisib hipos
      have hzip : ((indices.set sib ipos).set (sib + 1) isib).zip
          ((children.set sib x).set (sib + 1) csib) =
          (((indices.zip children).set sib (ipos, x)).set (sib + 1)
            (isib, csib)) := by
        rw [← zip_set, ← zip_set]
      have hzperm : (((indices.set sib ipos).set (sib + 1) isib).zip
          ((children.set sib x).set (sib + 1) csib)).Perm
          (indices.zip children) := by
        rw [hzip]
        exact perm_set_set_adj _ sib (isib, csib) (ipos, x)
          (zip_getElem hisib hcs) (zip_getElem hipos hx)
      refine ⟨r1, r2.trans hzperm, r3.trans hcperm, r4.trans hiperm, ?_, ?_⟩
      · rw [r5]; simp
      · rw [r6]; simp

/-- Sortedness-free facts about incrementChildNodePriorityAndSwapIfNeeded. -/
theorem incrementChild_basic {n : Node} {pos : Nat} {n' : Node} {pos' : Nat}
    (hrun : n.incrementChildNodePriorityAndSwapIfNeeded pos =
      some (n', pos')) :
    ∃ c, n.children[pos]? = some c ∧
      n'.children[pos']? = some { c with priority := c.priority + 1 } ∧
      (n'.indices.zip n'.children).Perm
        (n.indices.zip
          (n.children.set pos { c with priority := c.priority + 1 })) ∧
      n'.children.Perm
        (n.children.set pos { c with priority := c.priority + 1 }) ∧
      n'.indices.Perm n.indices ∧
      n'.children.length = n.children.length ∧
      n'.indices.length = n.indices.length ∧
      n'.path = n.path ∧ n'.nodeType = n.nodeType ∧
      n'.wildChild = n.wildChild ∧ n'.handler = n.handler := by
  unfold Node.incrementChildNodePriorityAndSwapIfNeeded at hrun
  by_cases hlt : pos ≥ n.children.length
  · rw [if_pos hlt] at hrun; exact absurd hrun (by simp)
  rw [if_neg hlt] at hrun
  push_neg at hlt
  cases hc : n.children[pos]? with
  | none => rw [hc] at hrun; simp at hrun
  | some c =>
  rw [hc] at hrun
  dsimp only at hrun
  cases hbb : bubbleLeft (c.priority + 1)
      (n.children.set pos { c with priority := c.priority + 1 })
      n.indices pos with
  | none => rw [hbb] at hrun; simp at hrun
  | some res =>
  obtain ⟨ch2, idx2, p2⟩ := res
  rw [hbb] at hrun
  simp only [Option.some.injEq, Prod.mk.injEq] at hrun
  obtain ⟨h1, h2⟩ := hrun
  have hset : (n.children.set pos { c with priority := c.priority + 1 })[pos]?
      = some { c with priority := c.priority + 1 } := by
    rw [List.getElem?_set_self hlt]
  obtain ⟨r1, r2, r3, r4, r5, r6⟩ := bubbleLeft_basic pos _ _ _ _ _ _ _
    hset hbb
  subst h1
  subst h2
  refine ⟨c, rfl, r1, r2, r3, r4, ?_, r6, rfl, rfl, rfl, rfl⟩
  rw [r5]
  simp

/-- Intro rule: a wildcard parent node with a single wildcard child. -/
theorem invL_mkwild {m sub : Node} (hi : m.indices = [])
    (hch : m.children = [sub]) (hw : m.wildChild = true)
    (ht : m.nodeType ≠ NodeType.param) (hsub : InvL sub) : InvL m := by
  refine InvL.mk ⟨?_, ?_, ?_, ?_⟩ ?_
  · intro _; exact ⟨hi, sub, hch⟩
  · intro hfw; rw [hw] at hfw; cases hfw
  · intro p hp; rw [hi] at hp; simp at hp
  · intro hp; exact absurd hp ht
  · intro c hc
    rw [hch] at hc
    rw [List.mem_singleton.1 hc]
    exact hsub

/-- Intro rule: a parameter node holding only its continuation child. -/
theorem invL_mkparam {m sub : Node} (hi : m.indices = [])
    (hch : m.children = [sub]) (hw : m.wildChild = false)
    (ht : m.nodeType = NodeType.param)
    (hsubT : sub.nodeType ≠ NodeType.param ∧
      sub.nodeType ≠ NodeType.catchAll)
    (hsub : InvL sub) : InvL m := by
  refine InvL.mk ⟨?_, ?_, ?_, ?_⟩ ?_
  · intro hfw; rw [hw] at hfw; cases hfw
  · intro _
    right
    refine ⟨ht, hi, ?_⟩
    rw [hch]
    rfl
  · intro p hp; rw [hi] at hp; simp at hp
  · intro _ c hc
    rw [hch] at hc
    rw [List.mem_singleton.1 hc]
    exact hsubT
  · intro c hc
    rw [hch] at hc
    rw [List.mem_singleton.1 hc]
    exact hsub

/-- The insertChild scan keeps the children/indices shape invariant and
never changes the node type of the node it writes. -/
theorem insertChildScan_invL (routePath : Bytes) (handler : Option Nat)
    (path : Bytes) :
    ∀ (rest : Bytes) (pc : Nat) (n : Node) (offset i : Nat) (n' : Node),
    InvL n →
    (n.nodeType = NodeType.param → ∀ x ∈ rest, x ≠ 58 ∧ x ≠ 42) →
    rest = path.drop i →
    Node.insertChildScan routePath path handler pc n offset i rest =
      Except.ok n' →
    InvL n' ∧ n'.nodeType = n.nodeType := by
  intro rest
  induction rest with
  | nil =>
    intro pc n offset i n' ha hsc hdrop hrun
    cases pc with
    | zero =>
      simp only [Node.insertChildScan, Except.ok.injEq] at hrun
      subst hrun
      refine ⟨@invL_eq n _ ?_ ?_ ?_ ?_ ha, rfl⟩ <;> rfl
    | succ p => simp [Node.insertChildScan] at hrun
  | cons c rest ih =>
    intro pc n offset i n' ha hsc hdrop hrun
    have hdrop2 : rest = path.drop (i + 1) := by
      have h1 : path.drop (i + 1) = (path.drop i).drop 1 := by
        rw [List.drop_drop]
      rw [h1, ← hdrop]
      rfl
    cases pc with
    | zero =>
      simp only [Node.insertChildScan, Except.ok.injEq] at hrun
      subst hrun
      refine ⟨@invL_eq n _ ?_ ?_ ?_ ?_ ha, rfl⟩ <;> rfl
    | succ pcp =>
      simp only [Node.insertChildScan] at hrun
      by_cases hcs : c ≠ 58 ∧ c ≠ 42
      · rw [if_pos hcs] at hrun
        exact ih _ _ _ _ _ ha
          (fun hp x hx => hsc hp x (List.mem_cons_of_mem c hx)) hdrop2 hrun
      rw [if_neg hcs] at hrun
      have hnp : n.nodeType ≠ NodeType.param := by
        intro hp
        exact hcs (hsc hp c (List.mem_cons_self c rest))
      by_cases hch : n.children.length > 0
      · rw [if_pos hch] at hrun; cases hrun
      rw [if_neg hch] at hrun
      have hchn : n.children = [] := List.eq_nil_of_length_eq_zero (by omega)
      have hwF : n.wildChild = false := by
        by_contra hw
        rw [Bool.not_eq_false] at hw
        obtain ⟨_, c2, hc2⟩ := (invL_nodeok ha).1 hw
        rw [hchn] at hc2
        cases hc2
      have hiN : n.indices = [] := by
        rcases (invL_nodeok ha).2.1 hwF with hlen | ⟨_, hi, _⟩
        · rw [hchn] at hlen
          exact List.eq_nil_of_length_eq_zero (by simpa using hlen)
        · exact hi
      cases hwe : wildEnd rest with
      | none => rw [hwe] at hrun; cases hrun
      | some k =>
      rw [hwe] at hrun
      dsimp only at hrun
      by_cases he2 : i + 1 + k - i < 2
      · rw [if_pos he2] at hrun; cases hrun
      rw [if_neg he2] at hrun
      by_cases hc58 : c = 58
      · rw [if_pos hc58] at hrun
        by_cases hi0 : i > 0
        · simp only [if_pos hi0] at hrun
          by_cases helt : i + 1 + k < path.length
          · rw [if_pos helt] at hrun
            split at hrun
            · cases hrun
            · rename_i sub hsub
              injection hrun with hrun
              subst hrun
              obtain ⟨hsubL, hsubT⟩ := ih _ _ _ _ _ (invL_leaf rfl rfl rfl)
                (by intro hp; cases hp) hdrop2 hsub
              have hsubT2 : sub.nodeType = NodeType.static := hsubT
              refine ⟨?_, rfl⟩
              refine invL_mkwild hiN rfl rfl hnp ?_
              refine invL_mkparam rfl rfl rfl rfl ?_ hsubL
              constructor
              · rw [hsubT2]
                intro h
                cases h
              · rw [hsubT2]
                intro h
                cases h
          · rw [if_neg helt] at hrun
            split at hrun
            · cases hrun
            · rename_i sub hsub
              injection hrun with hrun
              subst hrun
              have hklen : k = rest.length := by
                have hk1 := wildEnd_le rest k hwe
                have hlen2 : (c :: rest).length = path.length - i := by
                  rw [hdrop]
                  simp
                simp only [List.length_cons] at hlen2
                omega
              have hclean : ∀ x ∈ rest, x ≠ 58 ∧ x ≠ 42 :=
                wildEnd_full_clean rest k hwe hklen
              obtain ⟨hsubL, hsubT⟩ := ih _ _ _ _ _ (invL_leaf rfl rfl rfl)
                (fun _ => hclean) hdrop2 hsub
              exact ⟨invL_mkwild hiN rfl rfl hnp hsubL, rfl⟩
        · simp only [if_neg hi0] at hrun
          by_cases helt : i + 1 + k < path.length
          · rw [if_pos helt] at hrun
            split at hrun
            · cases hrun
            · rename_i sub hsub
              injection hrun with hrun
              subst hrun
              obtain ⟨hsubL, hsubT⟩ := ih _ _ _ _ _ (invL_leaf rfl rfl rfl)
                (by intro hp; cases hp) hdrop2 hsub
              have hsubT2 : sub.nodeType = NodeType.static := hsubT
              refine ⟨?_, rfl⟩
              refine invL_mkwild hiN rfl rfl hnp ?_
              refine invL_mkparam rfl rfl rfl rfl ?_ hsubL
              constructor
              · rw [hsubT2]
                intro h
                cases h
              · rw [hsubT2]
                intro h
                cases h
          · rw [if_neg helt] at hrun
            split at hrun
            · cases hrun
            · rename_i sub hsub
              injection hrun with hrun
              subst hrun
              have hklen : k = rest.length := by
                have hk1 := wildEnd_le rest k hwe
                have hlen2 : (c :: rest).length = path.length - i := by
                  rw [hdrop]
                  simp
                simp only [List.length_cons] at hlen2
                omega
              have hclean : ∀ x ∈ rest, x ≠ 58 ∧ x ≠ 42 :=
                wildEnd_full_clean rest k hwe hklen
              obtain ⟨hsubL, hsubT⟩ := ih _ _ _ _ _ (invL_leaf rfl rfl rfl)
                (fun _ => hclean) hdrop2 hsub
              exact ⟨invL_mkwild hiN rfl rfl hnp hsubL, rfl⟩
      · rw [if_neg hc58] at hrun
        by_cases hend : i + 1 + k ≠ path.length ∨ pcp + 1 > 1
        · rw [if_pos hend] at hrun; cases hrun
        rw [if_neg hend] at hrun
        by_cases hroot : n.path.length > 0 ∧ n.path.getLast? = some 47
        · rw [if_pos hroot] at hrun; cases hrun
        rw [if_neg hroot] at hrun
        cases i with
        | zero => cases hrun
        | succ iM1 =>
          dsimp only at hrun
          by_cases hslash : path.getD iM1 0 ≠ 47
          · rw [if_pos hslash] at hrun; cases hrun
          rw [if_neg hslash] at hrun
          injection hrun with hrun
          subst hrun
          refine ⟨?_, rfl⟩
          refine InvL.mk ⟨?_, ?_, ?_, ?_⟩ ?_
          · intro hfw
            have h2 : n.wildChild = true := hfw
            rw [hwF] at h2
            cases h2
          · intro _
            left
            rfl
          · intro p hp
            simp only [List.zip_cons_cons, List.zip_nil_right,
              List.mem_singleton] at hp
            subst hp
            refine ⟨?_, fun _ => ⟨rfl, rfl⟩⟩
            intro h
            cases h
          · intro hp
            exact absurd (show n.nodeType = NodeType.param from hp) hnp
          · intro c2 hc2
            rw [List.mem_singleton.1 hc2]
            refine invL_mkwild rfl rfl rfl ?_ (invL_leaf rfl rfl rfl)
            intro h
            cases h

theorem getD_of_drop_cons : ∀ (l : Bytes) (k : Nat) (c : Nat) (t : Bytes),
    l.drop k = c :: t → l.getD k 0 = c := by
  intro l
  induction l with
  | nil => intro k c t h; simp at h
  | cons a rest ih =>
    intro k c t h
    cases k with
    | zero =>
      simp only [List.drop_zero] at h
      cases h
      rfl
    | succ j =>
      rw [List.drop_succ_cons] at h
      have := ih j c t h
      simpa [List.getD] using this

/-- Transport of InvL across nodes sharing children, indices and wildChild,
when neither node is a parameter node. -/
theorem invL_eq_nonparam {n m : Node} (hc : n.children = m.children)
    (hi : n.indices = m.indices) (hw : n.wildChild = m.wildChild)
    (hp1 : n.nodeType ≠ NodeType.param) (hp2 : m.nodeType ≠ NodeType.param)
    (h : InvL n) : InvL m := by
  cases h with
  | mk hk hrec =>
    obtain ⟨h1, h2, h3, h4⟩ := hk
    refine InvL.mk ⟨?_, ?_, ?_, ?_⟩ (hc ▸ hrec)
    · rw [← hc, ← hi, ← hw]; exact h1
    · intro hfw
      rw [← hw] at hfw
      rcases h2 hfw with hl | ⟨hpp, _, _⟩
      · left; rw [← hc, ← hi]; exact hl
      · exact absurd hpp hp1
    · rw [← hc, ← hi]; exact h3
    · intro hpp; exact absurd hpp hp2

theorem addRouteWalk_invL : ∀ (fuel : Nat) (n : Node) (path : Bytes)
    (pc : Nat) (handler : Option Nat) (routePath : Bytes) (n' : Node),
    InvL n → WildPreL n path →
    Node.addRouteWalk handler routePath fuel n path pc =
      some (Except.ok n') →
    InvL n' ∧ n'.nodeType = n.nodeType ∧
    (n.path = [] ∧ n.wildChild = true →
      n'.path = [] ∧ n'.wildChild = true) := by
  intro fuel
  induction fuel with
  | zero =>
    intro n path pc handler routePath n' ha hpre hrun
    simp [Node.addRouteWalk] at hrun
  | succ f ih =>
    intro n path pc handler routePath n' ha hpre hrun
    rw [Node.addRouteWalk] at hrun
    set N1 : Node := if pc > n.maxParameters then
      { n with maxParameters := pc } else n with hN1
    set POS : Nat := commonPrefixLength path N1.path with hPOS
    set NN : Node := if POS < N1.path.length then
      { N1 with
        children := [{ emptyNode with
          path := N1.path.drop POS
          wildChild := N1.wildChild
          indices := N1.indices
          children := N1.children
          handler := N1.handler
          priority := N1.priority - 1
          maxParameters := maxChildParams N1.children }]
        indices := [N1.path.getD POS 0]
        path := path.take POS
        handler := none
        wildChild := false } else N1 with hNN
    have hN1c : N1.children = n.children := by rw [hN1]; split <;> rfl
    have hN1i : N1.indices = n.indices := by rw [hN1]; split <;> rfl
    have hN1w : N1.wildChild = n.wildChild := by rw [hN1]; split <;> rfl
    have hN1t : N1.nodeType = n.nodeType := by rw [hN1]; split <;> rfl
    have hN1p : N1.path = n.path := by rw [hN1]; split <;> rfl
    have haN1 : InvL N1 := invL_eq hN1c.symm hN1i.symm hN1w.symm hN1t.symm ha
    have hposn : (n.nodeType = NodeType.param ∨
        n.nodeType = NodeType.catchAll) → POS = n.path.length := by
      intro hpt
      obtain ⟨hle, hpref, _⟩ := hpre hpt
      rw [hPOS, hN1p]
      exact commonPrefixLength_of_prefix path n.path hle hpref
    have hnbt : POS < N1.path.length →
        n.nodeType ≠ NodeType.param ∧ n.nodeType ≠ NodeType.catchAll := by
      intro hs
      rw [hN1p] at hs
      constructor
      · intro hp
        rw [hposn (Or.inl hp)] at hs
        omega
      · intro hp
        rw [hposn (Or.inr hp)] at hs
        omega
    have hNNt : NN.nodeType = n.nodeType := by
      rw [hNN]; split <;> exact hN1t
    have haNN : InvL NN := by
      rw [hNN]
      split
      · rename_i hs
        refine InvL.mk ⟨?_, ?_, ?_, ?_⟩ ?_
        · intro hfw; cases hfw
        · intro _; left; rfl
        · intro p hp
          simp only [List.zip_cons_cons, List.zip_nil_right,
            List.mem_singleton] at hp
          subst hp
          refine ⟨?_, ?_⟩
          · intro h2; cases h2
          · intro h2; cases h2
        · intro hp2
          exact absurd (hN1t.symm.trans hp2) (hnbt hs).1
        · intro c2 hc2
          rw [List.mem_singleton.1 hc2]
          refine invL_eq_nonparam (n := N1) rfl rfl rfl ?_ ?_ haN1
          · intro h2; exact (hnbt hs).1 (hN1t.symm.trans h2)
          · intro h2; cases h2
      · exact haN1
    have hK2NN : n.path = [] ∧ n.wildChild = true →
        NN.path = n.path ∧ NN.wildChild = n.wildChild := by
      intro ⟨h1, h2⟩
      rw [hNN]
      split
      · rename_i hs
        rw [hN1p, h1] at hs
        simp at hs
      · exact ⟨hN1p, hN1w⟩
    clear hN1 hNN
    by_cases hlt : POS < path.length
    · rw [if_pos hlt] at hrun
      by_cases hwc : NN.wildChild = true
      · rw [if_pos hwc] at hrun
        obtain ⟨hiNN, c0, hc0⟩ := (invL_nodeok haNN).1 hwc
        cases hgi : getIdx NN.children 0 with
        | none => rw [hgi] at hrun; simp at hrun
        | some c =>
        rw [hgi] at hrun
        dsimp only at hrun
        have hc1 : c.1 = c0 := by
          have h2 := getIdx_some hgi
          have h3 : NN.children[0]? = some c0 := by rw [hc0]; rfl
          exact Option.some.inj (h2.symm.trans h3)
        by_cases hmx : pc > c.1.maxParameters
        · simp only [if_pos hmx] at hrun
          by_cases hcond : (path.drop POS).length ≥ c.1.path.length ∧
              c.1.path = (path.drop POS).take c.1.path.length ∧
              (c.1.path.length ≥ (path.drop POS).length ∨
                (path.drop POS).getD c.1.path.length 0 = 47)
          · simp only [if_pos hcond] at hrun
            split at hrun
            · exact Option.noConfusion hrun
            · exact Except.noConfusion (Option.some.inj hrun)
            · rename_i cw2 heq
              simp only [Option.some.injEq, Except.ok.injEq] at hrun
              subst hrun
              obtain ⟨hL2, hT2, hK2⟩ := ih _ _ _ _ _ _
                (by refine @invL_eq c.1 _ ?_ ?_ ?_ ?_
                      (invL_child haNN c.2) <;> rfl)
                (by
                  intro hpt
                  refine ⟨hcond.1, hcond.2.1, ?_⟩
                  intro _ hlen2
                  have hlen3 : c.1.path.length < (path.drop POS).length :=
                    hlen2
                  have hgoal : (path.drop POS).getD c.1.path.length 0 = 47 := by
                    rcases hcond.2.2 with h2 | h2
                    · omega
                    · exact h2
                  exact hgoal)
                heq
              have hT3 : cw2.nodeType = c.1.nodeType := hT2
              refine ⟨?_, hNNt, ?_⟩
              · refine InvL.mk ⟨?_, ?_, ?_, ?_⟩ ?_
                · intro _
                  refine ⟨hiNN, cw2, ?_⟩
                  show NN.children.set 0 cw2 = [cw2]
                  rw [hc0]
                  rfl
                · intro hfw
                  have h2 : NN.wildChild = false := hfw
                  rw [hwc] at h2
                  cases h2
                · intro p hp
                  have hp2 : p ∈ NN.indices.zip (NN.children.set 0 cw2) := hp
                  rw [hiNN] at hp2
                  simp at hp2
                · intro hptype c2 hc2
                  have hc2b : c2 ∈ NN.children.set 0 cw2 := hc2
                  rw [hc0, List.set_cons_zero] at hc2b
                  rw [List.mem_singleton.1 hc2b]
                  have hY := (invL_nodeok haNN).2.2.2
                    (show NN.nodeType = NodeType.param from hptype) c0
                    (by rw [hc0]; exact List.mem_singleton.2 rfl)
                  rw [hc1] at hT3
                  exact ⟨by rw [hT3]; exact hY.1, by rw [hT3]; exact hY.2⟩
                · intro c2 hc2
                  have hc2b : c2 ∈ NN.children.set 0 cw2 := hc2
                  rw [hc0, List.set_cons_zero] at hc2b
                  rw [List.mem_singleton.1 hc2b]
                  exact hL2
              · intro hpw2
                exact ⟨(hK2NN hpw2).1.trans hpw2.1,
                  (hK2NN hpw2).2.trans hpw2.2⟩
          · simp only [if_neg hcond] at hrun
            exact Except.noConfusion (Option.some.inj hrun)
        · simp only [if_neg hmx] at hrun
          by_cases hcond : (path.drop POS).length ≥ c.1.path.length ∧
              c.1.path = (path.drop POS).take c.1.path.length ∧
              (c.1.path.length ≥ (path.drop POS).length ∨
                (path.drop POS).getD c.1.path.length 0 = 47)
          · simp only [if_pos hcond] at hrun
            split at hrun
            · exact Option.noConfusion hrun
            · exact Except.noConfusion (Option.some.inj hrun)
            · rename_i cw2 heq
              simp only [Option.some.injEq, Except.ok.injEq] at hrun
              subst hrun
              obtain ⟨hL2, hT2, hK2⟩ := ih _ _ _ _ _ _
                (by refine @invL_eq c.1 _ ?_ ?_ ?_ ?_
                      (invL_child haNN c.2) <;> rfl)
                (by
                  intro hpt
                  refine ⟨hcond.1, hcond.2.1, ?_⟩
                  intro _ hlen2
                  have hlen3 : c.1.path.length < (path.drop POS).length :=
                    hlen2
                  have hgoal : (path.drop POS).getD c.1.path.length 0 = 47 := by
                    rcases hcond.2.2 with h2 | h2
                    · omega
                    · exact h2
                  exact hgoal)
                heq
              have hT3 : cw2.nodeType = c.1.nodeType := hT2
              refine ⟨?_, hNNt, ?_⟩
              · refine InvL.mk ⟨?_, ?_, ?_, ?_⟩ ?_
                · intro _
                  refine ⟨hiNN, cw2, ?_⟩
                  show NN.children.set 0 cw2 = [cw2]
                  rw [hc0]
                  rfl
                · intro hfw
                  have h2 : NN.wildChild = false := hfw
                  rw [hwc] at h2
                  cases h2
                · intro p hp
                  have hp2 : p ∈ NN.indices.zip (NN.children.set 0 cw2) := hp
                  rw [hiNN] at hp2
                  simp at hp2
                · intro hptype c2 hc2
                  have hc2b : c2 ∈ NN.children.set 0 cw2 := hc2
                  rw [hc0, List.set_cons_zero] at hc2b
                  rw [List.mem_singleton.1 hc2b]
                  have hY := (invL_nodeok haNN).2.2.2
                    (show NN.nodeType = NodeType.param from hptype) c0
                    (by rw [hc0]; exact List.mem_singleton.2 rfl)
                  rw [hc1] at hT3
                  exact ⟨by rw [hT3]; exact hY.1, by rw [hT3]; exact hY.2⟩
                · intro c2 hc2
                  have hc2b : c2 ∈ NN.children.set 0 cw2 := hc2
                  rw [hc0, List.set_cons_zero] at hc2b
                  rw [List.mem_singleton.1 hc2b]
                  exact hL2
              · intro hpw2
                exact ⟨(hK2NN hpw2).1.trans hpw2.1,
                  (hK2NN hpw2).2.trans hpw2.2⟩
          · simp only [if_neg hcond] at hrun
            exact Except.noConfusion (Option.some.inj hrun)
      · rw [if_neg hwc] at hrun
        have hwcF : NN.wildChild = false := by
          revert hwc
          cases NN.wildChild <;> simp
        cases hp2 : path.drop POS with
        | nil => rw [hp2] at hrun; simp at hrun
        | cons ca ptail =>
        rw [hp2] at hrun
        dsimp only at hrun
        by_cases hpsl : NN.nodeType = NodeType.param ∧ ca = 47 ∧
            NN.children.length = 1
        · rw [if_pos hpsl] at hrun
          cases hgi : getIdx NN.children 0 with
          | none => rw [hgi] at hrun; simp at hrun
          | some c =>
          rw [hgi] at hrun
          dsimp only at hrun
          split at hrun
          · exact Option.noConfusion hrun
          · exact Except.noConfusion (Option.some.inj hrun)
          · rename_i cw2 heq
            simp only [Option.some.injEq, Except.ok.injEq] at hrun
            subst hrun
            have hY := (invL_nodeok haNN).2.2.2 hpsl.1 c.1 c.2
            obtain ⟨hL2, hT2, hK2⟩ := ih _ _ _ _ _ _
              (by refine @invL_eq c.1 _ ?_ ?_ ?_ ?_
                    (invL_child haNN c.2) <;> rfl)
              (by
                intro hpt
                exfalso
                rcases hpt with hp | hp
                · exact hY.1 (show c.1.nodeType = NodeType.param from hp)
                · exact hY.2 (show c.1.nodeType = NodeType.catchAll from hp))
              heq
            have hT3 : cw2.nodeType = c.1.nodeType := hT2
            have hc00 : NN.children[0]? = some c.1 := getIdx_some hgi
            obtain ⟨t, hct⟩ := getElem0_cons hc00
            have ht0 : t = [] := by
              have h2 := hpsl.2.2
              rw [hct] at h2
              simpa using h2
            subst ht0
            refine ⟨?_, hNNt, ?_⟩
            · refine InvL.mk ⟨?_, ?_, ?_, ?_⟩ ?_
              · intro hfw
                have hw2 : NN.wildChild = true := hfw
                obtain ⟨hiN2, c3, _⟩ := (invL_nodeok haNN).1 hw2
                refine ⟨hiN2, cw2, ?_⟩
                show NN.children.set 0 cw2 = [cw2]
                rw [hct]
                rfl
              · intro hfw
                have hw2 : NN.wildChild = false := hfw
                rcases (invL_nodeok haNN).2.1 hw2 with hlen | ⟨hpp, hiE, hl1⟩
                · left
                  show NN.indices.length = (NN.children.set 0 cw2).length
                  rw [List.length_set]
                  exact hlen
                · right
                  refine ⟨hpp, hiE, ?_⟩
                  show (NN.children.set 0 cw2).length = 1
                  rw [List.length_set]
                  exact hl1
              · intro p hp
                have hp2 : p ∈ NN.indices.zip (NN.children.set 0 cw2) := hp
                cases hb : NN.indices[0]? with
                | some b =>
                  rw [zip_set_right_of_lt cw2 hb] at hp2
                  rcases mem_of_mem_set hp2 with rfl | hold
                  · refine ⟨?_, ?_⟩
                    · intro h2
                      exact hY.1 (hT3.symm.trans h2)
                    · intro h2
                      exact absurd (hT3.symm.trans h2) hY.2
                  · exact (invL_nodeok haNN).2.2.1 p hold
                | none =>
                  have hble : NN.indices.length ≤ 0 := by
                    by_contra h2
                    rw [List.getElem?_eq_getElem (by omega)] at hb
                    cases hb
                  rw [zip_set_right_of_ge _ _ _ _ (by omega)] at hp2
                  exact (invL_nodeok haNN).2.2.1 p hp2
              · intro hpt c2 hc2
                have hc2b : c2 ∈ NN.children.set 0 cw2 := hc2
                rcases mem_of_mem_set hc2b with rfl | hold
                · refine ⟨?_, ?_⟩
                  · intro h2
                    exact hY.1 (hT3.symm.trans h2)
                  · intro h2
                    exact hY.2 (hT3.symm.trans h2)
                · exact (invL_nodeok haNN).2.2.2
                    (show NN.nodeType = NodeType.param from hpt) c2 hold
              · intro c2 hc2
                have hc2b : c2 ∈ NN.children.set 0 cw2 := hc2
                rcases mem_of_mem_set hc2b with rfl | hold
                · exact hL2
                · exact invL_child haNN hold
            · intro hpw2
              exfalso
              have h2 := (hK2NN hpw2).2
              rw [hpw2.2] at h2
              rw [h2] at hwcF
              cases hwcF
        · rw [if_neg hpsl] at hrun
          cases hfip : findIndexPos NN.indices ca with
          | some idx =>
            rw [hfip] at hrun
            dsimp only at hrun
            cases hinc : NN.incrementChildNodePriorityAndSwapIfNeeded idx with
            | none => rw [hinc] at hrun; simp at hrun
            | some pr =>
            obtain ⟨n2, idx2⟩ := pr
            rw [hinc] at hrun
            dsimp only at hrun
            obtain ⟨c0, hc0, hp2, hzperm, hcperm, hiperm, hclen, hilen,
              hpath2, htype2, hwild2, hhand2⟩ := incrementChild_basic hinc
            have hIca : NN.indices[idx]? = some ca :=
              findIndexPos_getElem _ _ _ hfip
            have hXc0 := (invL_nodeok haNN).2.2.1 (ca, c0)
              (List.getElem?_mem (zip_getElem hIca hc0))
            have hmemn2 : ∀ y ∈ n2.children,
                y = { c0 with priority := c0.priority + 1 } ∨
                y ∈ NN.children := by
              intro y hy
              exact mem_of_mem_set (hcperm.mem_iff.1 hy)
            have hlenNN : NN.indices.length = NN.children.length := by
              rcases (invL_nodeok haNN).2.1 hwcF with hlen | ⟨_, hiE, _⟩
              · exact hlen
              · rw [hiE] at hIca
                simp at hIca
            have haN2 : InvL n2 := by
              refine InvL.mk ⟨?_, ?_, ?_, ?_⟩ ?_
              · intro hw2
                exfalso
                have h3 : NN.wildChild = true := by rw [← hwild2]; exact hw2
                rw [h3] at hwcF
                cases hwcF
              · intro _
                left
                rw [hilen, hclen]
                exact hlenNN
              · intro p hp
                have hp3 := hzperm.mem_iff.1 hp
                rw [zip_set_right_of_lt _ hIca] at hp3
                rcases mem_of_mem_set hp3 with rfl | hold
                · refine ⟨?_, ?_⟩
                  · intro h2
                    exact hXc0.1 (show c0.nodeType = NodeType.param from h2)
                  · intro h2
                    have h3 := hXc0.2
                      (show c0.nodeType = NodeType.catchAll from h2)
                    exact ⟨h3.1, h3.2⟩
                · exact (invL_nodeok haNN).2.2.1 p hold
              · intro hpt c2 hc2
                rcases hmemn2 c2 hc2 with rfl | hold
                · have hYNN := (invL_nodeok haNN).2.2.2
                    (htype2.symm.trans hpt) c0 (List.getElem?_mem hc0)
                  exact ⟨fun h2 => hYNN.1
                      (show c0.nodeType = NodeType.param from h2),
                    fun h2 => hYNN.2
                      (show c0.nodeType = NodeType.catchAll from h2)⟩
                · exact (invL_nodeok haNN).2.2.2 (htype2.symm.trans hpt)
                    c2 hold
              · intro c2 hc2
                rcases hmemn2 c2 hc2 with rfl | hold
                · refine @invL_eq c0 _ ?_ ?_ ?_ ?_
                    (invL_child haNN (List.getElem?_mem hc0)) <;> rfl
                · exact invL_child haNN hold
            cases hgi2 : getIdx n2.children idx2 with
            | none => rw [hgi2] at hrun; simp at hrun
            | some csub =>
            rw [hgi2] at hrun
            dsimp only at hrun
            split at hrun
            · exact Option.noConfusion hrun
            · exact Except.noConfusion (Option.some.inj hrun)
            · rename_i child2 heq
              simp only [Option.some.injEq, Except.ok.injEq] at hrun
              subst hrun
              have hcsub : csub.1 =
                  { c0 with priority := c0.priority + 1 } := by
                have h2 := getIdx_some hgi2
                exact Option.some.inj (h2.symm.trans hp2)
              have hcsT : csub.1.nodeType = c0.nodeType := by
                rw [hcsub]
              have hXsub := (invL_nodeok haN2).2.2.1
              obtain ⟨hL2, hT2, hK2⟩ := ih _ _ _ _ _ _
                (invL_child haN2 csub.2)
                (by
                  intro hpt
                  rcases hpt with hp | hp
                  · exact absurd (hcsT.symm.trans hp) hXc0.1
                  · have hcp : c0.nodeType = NodeType.catchAll :=
                      hcsT.symm.trans hp
                    have hpw := hXc0.2 hcp
                    have hcspath : csub.1.path = [] := by
                      rw [hcsub]
                      exact hpw.1
                    refine ⟨?_, ?_, ?_⟩
                    · rw [hcspath]
                      simp
                    · rw [hcspath]
                      rfl
                    · intro hp3 _
                      exact absurd (hcsT.symm.trans hp3) hXc0.1)
                heq
              have hT3 : child2.nodeType = csub.1.nodeType := hT2
              have hidxlt : idx2 < n2.children.length := by
                by_contra h2
                rw [List.getElem?_eq_none (by omega)] at hp2
                cases hp2
              obtain ⟨b, hb⟩ : ∃ b, n2.indices[idx2]? = some b := by
                refine ⟨n2.indices[idx2], List.getElem?_eq_getElem ?_⟩
                rw [hilen, hlenNN, ← hclen]
                exact hidxlt
              have hXpair := (invL_nodeok haN2).2.2.1 (b, csub.1)
                (List.getElem?_mem (zip_getElem hb (getIdx_some hgi2)))
              refine ⟨?_, ?_, ?_⟩
              · refine InvL.mk ⟨?_, ?_, ?_, ?_⟩ ?_
                · intro hfw
                  exfalso
                  have h3 : NN.wildChild = true := by
                    rw [← hwild2]
                    exact hfw
                  rw [h3] at hwcF
                  cases hwcF
                · intro _
                  left
                  show n2.indices.length = (n2.children.set idx2 child2).length
                  rw [List.length_set, hilen, hclen]
                  exact hlenNN
                · intro p hp
                  have hp3 : p ∈ n2.indices.zip
                      (n2.children.set idx2 child2) := hp
                  rw [zip_set_right_of_lt _ hb] at hp3
                  rcases mem_of_mem_set hp3 with rfl | hold
                  · refine ⟨?_, ?_⟩
                    · intro h2
                      exact hXpair.1 (hT3.symm.trans h2)
                    · intro h2
                      have h4 := hXpair.2 (hT3.symm.trans h2)
                      exact hK2 ⟨h4.1, h4.2⟩
                  · exact (invL_nodeok haN2).2.2.1 p hold
                · intro hpt c2 hc2
                  have hc2b : c2 ∈ n2.children.set idx2 child2 := hc2
                  rcases mem_of_mem_set hc2b with rfl | hold
                  · have hYn2 := (invL_nodeok haN2).2.2.2
                      (show n2.nodeType = NodeType.param from hpt) csub.1
                      csub.2
                    exact ⟨fun h2 => hYn2.1 (hT3.symm.trans h2),
                      fun h2 => hYn2.2 (hT3.symm.trans h2)⟩
                  · exact (invL_nodeok haN2).2.2.2
                      (show n2.nodeType = NodeType.param from hpt) c2 hold
                · intro c2 hc2
                  have hc2b : c2 ∈ n2.children.set idx2 child2 := hc2
                  rcases mem_of_mem_set hc2b with rfl | hold
                  · exact hL2
                  · exact invL_child haN2 hold
              · show n2.nodeType = n.nodeType
                exact htype2.trans hNNt
              · intro hpw2
                exfalso
                have h2 := (hK2NN hpw2).2
                rw [hpw2.2] at h2
                rw [h2] at hwcF
                cases hwcF
          | none =>
            rw [hfip] at hrun
            by_cases hnw : ca ≠ 58 ∧ ca ≠ 42
            · rw [if_pos hnw] at hrun
              dsimp only at hrun
              have hcaD : path.getD POS 0 = ca :=
                getD_of_drop_cons path POS ca ptail hp2
              have hlenNN : NN.indices.length = NN.children.length := by
                rcases (invL_nodeok haNN).2.1 hwcF with hlen | ⟨hpp, hiE, hl1⟩
                · exact hlen
                · exfalso
                  have hnp : n.nodeType = NodeType.param := hNNt.symm.trans hpp
                  have hPn := hposn (Or.inl hnp)
                  have h47 := (hpre (Or.inl hnp)).2.2 hnp (by omega)
                  rw [← hPn, hcaD] at h47
                  exact hpsl ⟨hpp, h47, hl1⟩
              set FR : Node := { emptyNode with
                routePath := routePath
                maxParameters := pc } with hFR
              set N2 : Node := { NN with
                indices := NN.indices ++ [ca]
                children := NN.children ++ [FR] } with hN2
              have hN2c : N2.children = NN.children ++ [FR] := by
                rw [hN2]
              have hN2i : N2.indices = NN.indices ++ [ca] := by
                rw [hN2]
              have hN2w : N2.wildChild = NN.wildChild := by rw [hN2]
              have hN2t : N2.nodeType = NN.nodeType := by rw [hN2]
              have hFRw : FR.wildChild = false := by rw [hFR]; rfl
              have hFRt : FR.nodeType = NodeType.static := by rw [hFR]; rfl
              have hFRL : InvL FR := by
                refine invL_leaf ?_ ?_ ?_ <;> rw [hFR] <;> rfl
              have hN2len : N2.indices.length = N2.children.length := by
                rw [hN2c, hN2i, List.length_append, List.length_append,
                  hlenNN]
                simp
              have haN2 : InvL N2 := by
                refine InvL.mk ⟨?_, ?_, ?_, ?_⟩ ?_
                · intro hw2
                  exfalso
                  rw [hN2w, hwcF] at hw2
                  cases hw2
                · intro _
                  left
                  exact hN2len
                · intro p hp
                  rw [hN2i, hN2c, zip_append_single _ _ _ _ hlenNN] at hp
                  rcases List.mem_append.1 hp with hold | hnew
                  · exact (invL_nodeok haNN).2.2.1 p hold
                  · rw [List.mem_singleton.1 hnew]
                    refine ⟨?_, ?_⟩
                    · intro h2
                      rw [hFRt] at h2
                      cases h2
                    · intro h2
                      rw [hFRt] at h2
                      cases h2
                · intro hpt c2 hc2
                  rw [hN2c] at hc2
                  rcases List.mem_append.1 hc2 with hold | hnew
                  · exact (invL_nodeok haNN).2.2.2
                      (hN2t.symm.trans hpt) c2 hold
                  · rw [List.mem_singleton.1 hnew]
                    refine ⟨?_, ?_⟩
                    · intro h2
                      rw [hFRt] at h2
                      cases h2
                    · intro h2
                      rw [hFRt] at h2
                      cases h2
                · intro c2 hc2
                  rw [hN2c] at hc2
                  rcases List.mem_append.1 hc2 with hold | hnew
                  · exact invL_child haNN hold
                  · rw [List.mem_singleton.1 hnew]
                    exact hFRL
              have hIca2 : N2.indices[N2.indices.length - 1]? = some ca := by
                rw [hN2i]
                have h9 : (NN.indices ++ [ca]).length - 1 =
                    NN.indices.length + 0 := by
                  rw [List.length_append]
                  simp
                rw [h9, getElem_append_len]
                rfl
              have hcF : N2.children[N2.indices.length - 1]? = some FR := by
                rw [hN2c, hN2i]
                have h9 : (NN.indices ++ [ca]).length - 1 =
                    NN.children.length + 0 := by
                  rw [List.length_append]
                  simp [hlenNN]
                rw [h9, getElem_append_len]
                rfl
              split at hrun
              · exact Except.noConfusion (Option.some.inj hrun)
              · rename_i n3 newPos hinc
                obtain ⟨c0, hc0, hp3, hzperm, hcperm, hiperm, hclen, hilen,
                  hpath3, htype3, hwild3, hhand3⟩ := incrementChild_basic hinc
                have hc0F : c0 = FR :=
                  Option.some.inj (hc0.symm.trans hcF)
                subst hc0F
                have hBt : ({ FR with priority := FR.priority + 1 } :
                    Node).nodeType = NodeType.static := hFRt
                have haN3 : InvL n3 := by
                  refine InvL.mk ⟨?_, ?_, ?_, ?_⟩ ?_
                  · intro hw2
                    exfalso
                    have h3 : N2.wildChild = true := hwild3.symm.trans hw2
                    rw [hN2w, hwcF] at h3
                    cases h3
                  · intro _
                    left
                    rw [hilen, hclen]
                    exact hN2len
                  · intro p hp
                    have hp4 := hzperm.mem_iff.1 hp
                    rw [zip_set_right_of_lt _ hIca2] at hp4
                    rcases mem_of_mem_set hp4 with rfl | hold
                    · refine ⟨?_, ?_⟩
                      · intro h2
                        rw [hBt] at h2
                        cases h2
                      · intro h2
                        rw [hBt] at h2
                        cases h2
                    · exact (invL_nodeok haN2).2.2.1 p hold
                  · intro hpt c2 hc2
                    rcases mem_of_mem_set (hcperm.mem_iff.1 hc2) with
                      rfl | hold
                    · refine ⟨?_, ?_⟩
                      · intro h2
                        rw [hBt] at h2
                        cases h2
                      · intro h2
                        rw [hBt] at h2
                        cases h2
                    · exact (invL_nodeok haN2).2.2.2
                        (htype3.symm.trans hpt) c2 hold
                  · intro c2 hc2
                    rcases mem_of_mem_set (hcperm.mem_iff.1 hc2) with
                      rfl | hold
                    · refine @invL_eq FR _ ?_ ?_ ?_ ?_ hFRL <;> rfl
                    · exact invL_child haN2 hold
                split at hrun
                · exact Except.noConfusion (Option.some.inj hrun)
                · rename_i cw hgi3
                  split at hrun
                  · exact Except.noConfusion (Option.some.inj hrun)
                  · rename_i sub hic
                    simp only [Option.some.injEq, Except.ok.injEq] at hrun
                    subst hrun
                    have hcw : cw.1 =
                        { FR with priority := FR.priority + 1 } := by
                      have h2 := getIdx_some hgi3
                      exact Option.some.inj (h2.symm.trans hp3)
                    have hcwT : cw.1.nodeType = NodeType.static := by
                      rw [hcw]
                      exact hBt
                    simp only [Node.insertChild] at hic
                    obtain ⟨hsubL, hsubT⟩ := insertChildScan_invL routePath
                      handler (ca :: ptail) (ca :: ptail) pc cw.1 0 0 sub
                      (invL_child haN3 cw.2)
                      (by
                        intro hp5
                        exfalso
                        rw [hcwT] at hp5
                        cases hp5)
                      rfl hic
                    have hsT2 : sub.nodeType = NodeType.static :=
                      hsubT.trans hcwT
                    have hidxlt : newPos < n3.children.length := by
                      by_contra h2
                      rw [List.getElem?_eq_none (by omega)] at hp3
                      cases hp3
                    obtain ⟨b2, hb2⟩ : ∃ b2, n3.indices[newPos]? =
                        some b2 := by
                      have hlt2 : newPos < n3.indices.length := by
                        rw [hilen, hN2len, ← hclen]
                        exact hidxlt
                      exact ⟨n3.indices.get ⟨newPos, hlt2⟩,
                        List.getElem?_eq_getElem hlt2⟩
                    refine ⟨?_, ?_, ?_⟩
                    · refine InvL.mk ⟨?_, ?_, ?_, ?_⟩ ?_
                      · intro hfw
                        exfalso
                        have h3 : N2.wildChild = true :=
                          hwild3.symm.trans hfw
                        rw [hN2w, hwcF] at h3
                        cases h3
                      · intro _
                        left
                        show n3.indices.length =
                          (n3.children.set newPos sub).length
                        rw [List.length_set, hilen, hclen]
                        exact hN2len
                      · intro p hp
                        have hp6 : p ∈ n3.indices.zip
                            (n3.children.set newPos sub) := hp
                        rw [zip_set_right_of_lt _ hb2] at hp6
                        rcases mem_of_mem_set hp6 with rfl | hold
                        · refine ⟨?_, ?_⟩
                          · intro h2
                            rw [hsT2] at h2
                            cases h2
                          · intro h2
                            rw [hsT2] at h2
                            cases h2
                        · exact (invL_nodeok haN3).2.2.1 p hold
                      · intro hpt c2 hc2
                        have hc2b : c2 ∈ n3.children.set newPos sub := hc2
                        rcases mem_of_mem_set hc2b with rfl | hold
                        · refine ⟨?_, ?_⟩
                          · intro h2
                            rw [hsT2] at h2
                            cases h2
                          · intro h2
                            rw [hsT2] at h2
                            cases h2
                        · exact (invL_nodeok haN3).2.2.2
                            (show n3.nodeType = NodeType.param from hpt)
                            c2 hold
                      · intro c2 hc2
                        have hc2b : c2 ∈ n3.children.set newPos sub := hc2
                        rcases mem_of_mem_set hc2b with rfl | hold
                        · exact hsubL
                        · exact invL_child haN3 hold
                    · show n3.nodeType = n.nodeType
                      exact (htype3.trans hN2t).trans hNNt
                    · intro hpw2
                      exfalso
                      have h2 := (hK2NN hpw2).2
                      rw [hpw2.2] at h2
                      rw [h2] at hwcF
                      cases hwcF
            · rw [if_neg hnw] at hrun
              dsimp only at hrun
              cases hic : NN.insertChild pc routePath (ca :: ptail)
                  handler with
              | error e => rw [hic] at hrun; simp at hrun
              | ok n2 =>
                rw [hic] at hrun
                simp only [Option.some.injEq, Except.ok.injEq] at hrun
                subst hrun
                simp only [Node.insertChild] at hic
                have hscpre : NN.nodeType = NodeType.param →
                    ∀ x ∈ ca :: ptail, x ≠ 58 ∧ x ≠ 42 := by
                  intro hp
                  exfalso
                  have hnp : n.nodeType = NodeType.param :=
                    hNNt.symm.trans hp
                  obtain ⟨hle, hpref, h47⟩ := hpre (Or.inl hnp)
                  have hca : path.getD POS 0 = ca :=
                    getD_of_drop_cons path POS ca ptail hp2
                  have h472 := h47 hnp (by rw [← hposn (Or.inl hnp)]; omega)
                  rw [← hposn (Or.inl hnp)] at h472
                  rw [hca] at h472
                  subst h472
                  rcases not_and_or.1 hnw with h | h <;> simp at h <;> omega
                obtain ⟨hL, hT⟩ := insertChildScan_invL routePath handler
                  (ca :: ptail) (ca :: ptail) pc NN 0 0 n2 haNN hscpre rfl hic
                refine ⟨hL, hT.trans hNNt, ?_⟩
                intro hpw2
                exfalso
                have := (hK2NN hpw2).2
                rw [hpw2.2] at this
                rw [this] at hwcF
                cases hwcF
    · rw [if_neg hlt] at hrun
      by_cases heq : POS = path.length
      · rw [if_pos heq] at hrun
        cases hh : NN.handler with
        | some v => rw [hh] at hrun; simp at hrun
        | none =>
          rw [hh] at hrun
          simp only [Option.some.injEq, Except.ok.injEq] at hrun
          subst hrun
          refine ⟨@invL_eq NN _ ?_ ?_ ?_ ?_ haNN, hNNt, ?_⟩ <;>
            try rfl
          intro hpw2
          exact hK2NN hpw2 |>.imp (fun h => by rw [h, hpw2.1])
            (fun h => by rw [h, hpw2.2])
      · rw [if_neg heq] at hrun
        simp only [Option.some.injEq, Except.ok.injEq] at hrun
        subst hrun
        refine ⟨haNN, hNNt, ?_⟩
        intro hpw2
        exact hK2NN hpw2 |>.imp (fun h => by rw [h, hpw2.1])
          (fun h => by rw [h, hpw2.2])

theorem addRoute_invL {t : Node} {path : Bytes} {h : Option Nat}
    {fuel : Nat} {t' : Node} (ha : InvL t)
    (hnt : t.nodeType ≠ NodeType.param ∧ t.nodeType ≠ NodeType.catchAll)
    (hrun : t.AddRoute path h fuel = some (Except.ok t')) :
    InvL t' ∧ t'.nodeType = t.nodeType := by
  rw [Node.AddRoute] at hrun
  dsimp only at hrun
  split at hrun
  · have hres := addRouteWalk_invL fuel _ path
      (countRequestPathParams path) h path t'
      (by refine @invL_eq t _ ?_ ?_ ?_ ?_ ha <;> rfl)
      (by
        intro hpt
        exfalso
        rcases hpt with hp | hp
        · exact hnt.1 (show t.nodeType = NodeType.param from hp)
        · exact hnt.2 (show t.nodeType = NodeType.catchAll from hp))
      hrun
    exact ⟨hres.1, hres.2.1⟩
  · split at hrun
    · exact Except.noConfusion (Option.some.inj hrun)
    · rename_i n2 hscan
      simp only [Option.some.injEq, Except.ok.injEq] at hrun
      subst hrun
      simp only [Node.insertChild] at hscan
      obtain ⟨hL, hT⟩ := insertChildScan_invL path h path path
        (countRequestPathParams path) _ 0 0 n2
        (by refine @invL_eq t _ ?_ ?_ ?_ ?_ ha <;> rfl)
        (by
          intro hpt
          exact absurd (show t.nodeType = NodeType.param from hpt)
            hnt.1)
        rfl hscan
      exact ⟨hL, hT⟩

theorem reachable_invL {t : Node} (hr : Reachable t) :
    InvL t ∧ t.nodeType = NodeType.static := by
  induction hr with
  | empty => exact ⟨invL_leaf rfl rfl rfl, rfl⟩
  | step path h fuel _ hrun ih =>
    rename_i t0 t1 t2
    obtain ⟨hL, hT⟩ := ih
    have hnt : t0.nodeType ≠ NodeType.param ∧ t0.nodeType ≠ NodeType.catchAll := by
      rw [hT]
      refine ⟨?_, ?_⟩
      · intro h2
        cases h2
      · intro h2
        cases h2
    obtain ⟨hL2, hT2⟩ := addRoute_invL hL hnt hrun
    exact ⟨hL2, hT2.trans hT⟩

theorem invL_memTree {t m : Node} (ha : InvL t) (hm : MemTree m t) :
    InvL m := by
  induction hm with
  | refl => exact ha
  | child hc _ ih => exact ih (invL_child ha hc)

/-- Concrete tree obtained by adding "/u/:id": a wildcard parent. -/
def c4wParam : Node :=
  { emptyNode with
    path := [58, 105, 100]
    routePath := [47, 117, 47, 58, 105, 100]
    nodeType := NodeType.param
    maxParameters := 1
    priority := 1
    handler := some 1 }

def c4wTree : Node :=
  { emptyNode with
    path := [47, 117, 47]
    children := [c4wParam]
    wildChild := true
    priority := 1 }

/-- C4 (amended): in every tree reachable by valid AddRoute calls and at
every node: if the node has its wildChild flag set then it has no index
bytes and exactly one child (so len(children) == len(indices) fails there,
as the counterexample shows); otherwise len(children) == len(indices),
except at a parameter node holding only its unindexed continuation child. -/
theorem c4_amended_children_indices :
    ∀ t, Reachable t → ∀ m, MemTree m t →
      (m.wildChild = true → m.indices = [] ∧ ∃ c, m.children = [c]) ∧
      (m.wildChild = false →
        m.indices.length = m.children.length ∨
        (m.nodeType = NodeType.param ∧ m.indices = [] ∧
          m.children.length = 1)) := by
  intro t hr m hm
  have hL := invL_memTree (reachable_invL hr).1 hm
  exact ⟨(invL_nodeok hL).1, (invL_nodeok hL).2.1⟩

theorem c4_amended_children_indices_witness :
    (c4wTree.wildChild = true →
      c4wTree.indices = [] ∧ ∃ c, c4wTree.children = [c]) ∧
    (c4wTree.wildChild = false →
      c4wTree.indices.length = c4wTree.children.length ∨
      (c4wTree.nodeType = NodeType.param ∧ c4wTree.indices = [] ∧
        c4wTree.children.length = 1)) :=
  c4_amended_children_indices c4wTree
    (Reachable.step (bsv "/u/:id") (some 1) 64 Reachable.empty (by rfl))
    c4wTree (MemTree.refl c4wTree)
end ApiGw
